import Mathlib

/-!
# Verification of the FAQ_bot semantic matching core

Shallow embedding of the semantic FAQ matching engine of the repository:

* `LRUCache` embeds the class of the same name in
  src/faq_bot/src/performance_manager.py (a thread-safe LRU cache with TTL;
  the lock is dropped because each operation is atomic in the model, and
  wall-clock time becomes an explicit natural-number argument `now`).
* `FAQ.loadFaq` embeds `FAQLoader.load_faq` together with
  `FAQLoader._validate_faq_item` from src/faq_bot/src/faq_loader.py.
* `FAQ.search` embeds `FAQLoader.search` from the same file, with the
  sentence-transformer model and the FAISS index abstracted as the functions
  of an `FAQ.Engine` record, similarities as rationals, and the Python
  `hash` of cache keys modelled as injective (so a key is the normalized
  text itself rather than its hash).
-/

/-- One entry store of the Python `LRUCache` class.  `cache` models the
`OrderedDict` as a list ordered from least- to most-recently used
(the Python iteration order); `timestamps` models the plain dict of
insertion times; `hits` and `misses` are the internal counters. -/
structure LRUCache (K : Type) (V : Type) where
  maxSize : Nat
  ttlSeconds : Nat
  cache : List (K × V)
  timestamps : List (K × Nat)
  hits : Nat
  misses : Nat

namespace LRUCache

variable {K V : Type} [DecidableEq K]

/-- `LRUCache.__init__`: an empty cache with the given bounds. -/
def init (maxSize ttlSeconds : Nat) : LRUCache K V :=
  { maxSize := maxSize, ttlSeconds := ttlSeconds,
    cache := [], timestamps := [], hits := 0, misses := 0 }

/-- Dictionary lookup (`dict.get`). -/
def lookup1 (l : List (K × Nat)) (k : K) : Option Nat :=
  match l.find? (fun p => decide (p.1 = k)) with
  | some p => some p.2
  | none => none

/-- `LRUCache._remove_key`: drop the key from both the value map and the
timestamp map. -/
def removeKey (c : LRUCache K V) (k : K) : LRUCache K V :=
  { c with cache := c.cache.filter (fun p => decide (p.1 ≠ k)),
           timestamps := c.timestamps.filter (fun p => decide (p.1 ≠ k)) }

/-- `LRUCache.get`: absent key is a miss; a present key whose timestamp is
missing or aged at least `ttlSeconds` is removed and counted as a miss; a
present fresh key is moved to the most-recently-used end and counted as a
hit. -/
def get (c : LRUCache K V) (now : Nat) (key : K) : Option V × LRUCache K V :=
  match c.cache.find? (fun p => decide (p.1 = key)) with
  | some entry =>
    match lookup1 c.timestamps key with
    | some ts =>
      if now - ts < c.ttlSeconds then
        (some entry.2,
         { c with cache := c.cache.filter (fun p => decide (p.1 ≠ key)) ++ [(key, entry.2)],
                  hits := c.hits + 1 })
      else
        ((none : Option V), { c.removeKey key with misses := c.misses + 1 })
    | none =>
        ((none : Option V), { c.removeKey key with misses := c.misses + 1 })
  | none => ((none : Option V), { c with misses := c.misses + 1 })

/-- The `while len(self._cache) > self.max_size` eviction loop of
`LRUCache.set`, with explicit fuel (the loop removes the head key each
iteration, so the list length is enough fuel). -/
def evictFuel : Nat → LRUCache K V → LRUCache K V
  | 0, c => c
  | fuel + 1, c =>
    if c.cache.length > c.maxSize then
      match c.cache with
      | [] => c
      | p :: _ => evictFuel fuel (c.removeKey p.1)
    else c

/-- `LRUCache.set`: remove an existing binding, append the new one at the
most-recently-used end, record the timestamp, then evict from the
least-recently-used head while over capacity. -/
def set (c : LRUCache K V) (now : Nat) (key : K) (v : V) : LRUCache K V :=
  let c1 := if c.cache.any (fun p => decide (p.1 = key)) then c.removeKey key else c
  let c2 := { c1 with
    cache := c1.cache ++ [(key, v)],
    timestamps := (key, now) :: c1.timestamps.filter (fun p => decide (p.1 ≠ key)) }
  evictFuel c2.cache.length c2

/-- `LRUCache.clear`. -/
def clear (c : LRUCache K V) : LRUCache K V :=
  { c with cache := [], timestamps := [] }

/-- One recorded cache call, for stating properties of operation
sequences. -/
inductive Op (K V : Type) where
  | get (now : Nat) (key : K)
  | set (now : Nat) (key : K) (v : V)
  | clear

/-- Run a sequence of cache calls, discarding the values `get` returns. -/
def runOps (c : LRUCache K V) : List (Op K V) → LRUCache K V
  | [] => c
  | op :: rest =>
    match op with
    | .get now key => runOps (c.get now key).2 rest
    | .set now key v => runOps (c.set now key v) rest
    | .clear => runOps c.clear rest

/-- The keys of the value map and of the timestamp map coincide. -/
def SameKeys (c : LRUCache K V) : Prop :=
  ∀ k : K, k ∈ c.cache.map Prod.fst ↔ k ∈ c.timestamps.map Prod.fst

end LRUCache

namespace FAQ

/-- The environment of one `FAQLoader` instance at search time.  `E` is the
opaque type of embedding vectors.  `encode` models
`self.model.encode([query], ...)` (`none` models the call raising);
`indexSearch` models `self.index.search(query_embedding, search_k)`
returning the row `list(zip(distances[0], indices[0]))` (`none` models the
call raising).  `hasIndex`, `hasFaq` and `modelLoaded` model the Python
truthiness of `self.index`, `self.faq` and `self.model` after
`_load_model`. -/
structure Engine (E : Type) where
  faqLen : Nat
  originalIndices : List Nat
  ntotal : Nat
  hasIndex : Bool
  hasFaq : Bool
  modelLoaded : Bool
  encode : String → Option E
  indexSearch : E → Int → Option (List (ℚ × Int))
  defaultThreshold : ℚ

/-- The mutable state `FAQLoader.search` touches through the global
`performance_manager`: the two `LRUCache` instances, the
`PerformanceMetrics` counters it updates, and two instrumentation counters
that count the calls made to the embedding model and to the FAISS index
(incremented exactly at the two call sites in the source). -/
structure SearchState (E : Type) where
  queryCache : LRUCache (String × Int × ℚ) (Option (ℚ × Nat))
  embCache : LRUCache String E
  totalRequests : Nat
  mHits : Nat
  mMisses : Nat
  encodeCalls : Nat
  indexCalls : Nat

variable {E : Type}

/-- `performance_manager.track_request` (run in the `finally` block of
`search`); the response-time bookkeeping is abstracted to the request
counter. -/
def trackReq (st : SearchState E) : SearchState E :=
  { st with totalRequests := st.totalRequests + 1 }

/-- Python `str.strip()`: drop whitespace from both ends (a structural
model over the character list, restricted to the ASCII whitespace the
queries use). -/
def pyStrip (s : String) : String :=
  String.mk (((s.data.dropWhile Char.isWhitespace).reverse.dropWhile
    Char.isWhitespace).reverse)

/-- Python `str.lower()` (a structural model over the character list; the
ASCII case fold of the two models agrees). -/
def pyLower (s : String) : String :=
  String.mk (s.data.map Char.toLower)

/-- The key under which `PerformanceManager` stores an embedding:
`f"embedding:{hash(text.lower().strip())}"`, with the Python `hash`
modelled as injective, so the key is the case-folded stripped text
itself. -/
def embKey (text : String) : String := pyStrip (pyLower text)

/-- The key under which a query result is stored: `FAQLoader.search` builds
`f"{query}:{k}:{threshold}"` from the already-stripped query and
`PerformanceManager` hashes its `.lower().strip()`; since the numeric parts
contain no letters and no edge whitespace, and the composite rendering is
injective on (query, k, threshold), the key is modelled as the case-folded
query together with `k` and the raw `threshold`. -/
def queryKey (query : String) (k : Int) (threshold : ℚ) : String × Int × ℚ :=
  (pyLower query, k, threshold)

/-- `PerformanceManager.get_cached_query_result`: look the key up in the
query cache and bump the global hit or miss counter according to whether a
stored value came back. -/
def getCachedQueryResult (st : SearchState E) (now : Nat) (key : String × Int × ℚ) :
    Option (Option (ℚ × Nat)) × SearchState E :=
  let r := st.queryCache.get now key
  match r.1 with
  | some v => (some v, { st with queryCache := r.2, mHits := st.mHits + 1 })
  | none => (none, { st with queryCache := r.2, mMisses := st.mMisses + 1 })

/-- `PerformanceManager.cache_query_result`. -/
def cacheQueryResult (st : SearchState E) (now : Nat) (key : String × Int × ℚ)
    (result : Option (ℚ × Nat)) : SearchState E :=
  { st with queryCache := st.queryCache.set now key result }

/-- `PerformanceManager.get_cached_embedding` (no global counters). -/
def getCachedEmbedding (st : SearchState E) (now : Nat) (text : String) :
    Option E × SearchState E :=
  let r := st.embCache.get now (embKey text)
  (r.1, { st with embCache := r.2 })

/-- `PerformanceManager.cache_embedding`. -/
def cacheEmbedding (st : SearchState E) (now : Nat) (text : String) (e : E) :
    SearchState E :=
  { st with embCache := st.embCache.set now (embKey text) e }

/-- The threshold validation step of `FAQLoader.search`: a threshold
outside [0, 1] is replaced by the configured default. -/
def validThreshold (env : Engine E) (t : ℚ) : ℚ :=
  if 0 ≤ t ∧ t ≤ 1 then t else env.defaultThreshold

/-- The result-filtering loop of `FAQLoader.search`: walk the first
`min(k, len(distances[0]))` candidates, map each FAISS row through
`original_indices` under a bounds check (the lower bound of the second
check is vacuous because `original_indices` holds naturals), and keep the
pairs whose similarity is at least the threshold. -/
def filterLoop (env : Engine E) (t : ℚ) (k : Int) (cands : List (ℚ × Int)) :
    List (ℚ × Nat) :=
  (cands.take (min k (cands.length : Int)).toNat).foldl
    (fun acc sc =>
      if 0 ≤ sc.2 ∧ sc.2 < (env.originalIndices.length : Int) then
        let origIdx := env.originalIndices.getD sc.2.toNat 0
        if origIdx < env.faqLen then
          if sc.1 ≥ t then acc ++ [(sc.1, origIdx)] else acc
        else acc
      else acc) []

/-- Stable insertion step for a descending sort on the similarity. -/
def insertDesc (x : ℚ × Nat) : List (ℚ × Nat) → List (ℚ × Nat)
  | [] => [x]
  | y :: ys => if x.1 ≥ y.1 then x :: y :: ys else y :: insertDesc x ys

/-- `filtered_results.sort(key=lambda x: x[0], reverse=True)`: Python sorts
are stable, and a stable descending sort is unique, so the stable insertion
sort embeds it. -/
def sortDesc : List (ℚ × Nat) → List (ℚ × Nat)
  | [] => []
  | x :: xs => insertDesc x (sortDesc xs)

/-- The tail of `FAQLoader.search` once an embedding `e` is in hand: clamp
`k` to the index size, run the FAISS search (a `none` outcome models the
raise caught at the call site, returned without caching), cache the
`(None, None)` result when the index returns no rows, otherwise filter,
sort descending and return the best survivor (or `(None, None)`), caching
either outcome. -/
def searchIndexPhase (env : Engine E) (st : SearchState E) (now : Nat)
    (ckey : String × Int × ℚ) (t : ℚ) (k : Int) (e : E) :
    Option (ℚ × Nat) × SearchState E :=
  let searchK : Int := min k (env.ntotal : Int)
  let st1 : SearchState E := { st with indexCalls := st.indexCalls + 1 }
  match env.indexSearch e searchK with
  | none => ((none : Option (ℚ × Nat)), trackReq st1)
  | some cands =>
    if cands.length = 0 then
      ((none : Option (ℚ × Nat)), trackReq (cacheQueryResult st1 now ckey none))
    else
      let result : Option (ℚ × Nat) :=
        match sortDesc (filterLoop env t k cands) with
        | [] => none
        | best :: _ => some best
      (result, trackReq (cacheQueryResult st1 now ckey result))

/-- The value `searchIndexPhase` returns, as a function of the environment
and the validated threshold alone (the state only affects the caches and
counters, not the returned value). -/
def phaseResult (env : Engine E) (t : ℚ) (k : Int) (e : E) : Option (ℚ × Nat) :=
  match env.indexSearch e (min k (env.ntotal : Int)) with
  | none => none
  | some cands =>
    if cands.length = 0 then none
    else
      match sortDesc (filterLoop env t k cands) with
      | [] => none
      | best :: _ => some best

/-- `FAQLoader.search`.  The result `none` stands for the Python return
value `(None, None)`; `some (s, i)` stands for `([s], [i])`.  All failure
returns inside the Python `try` block collapse to `none` because the body
only ever returns `(None, None)` on those paths, and every path runs
`track_request` in the `finally` block. -/
def search (env : Engine E) (st0 : SearchState E) (now : Nat)
    (query : String) (k : Int) (threshold : ℚ) :
    Option (ℚ × Nat) × SearchState E :=
  if pyStrip query = "" then ((none : Option (ℚ × Nat)), trackReq st0)
  else
    let q := pyStrip query
    let ckey := queryKey q k threshold
    let qcr := getCachedQueryResult st0 now ckey
    match qcr.1 with
    | some r => (r, trackReq qcr.2)
    | none =>
      let st := qcr.2
      if env.hasIndex = false then ((none : Option (ℚ × Nat)), trackReq st)
      else if env.hasFaq = false then ((none : Option (ℚ × Nat)), trackReq st)
      else if env.modelLoaded = false then ((none : Option (ℚ × Nat)), trackReq st)
      else
        let t := validThreshold env threshold
        let er := getCachedEmbedding st now q
        match er.1 with
        | some e => searchIndexPhase env er.2 now ckey t k e
        | none =>
          let st2 : SearchState E := { er.2 with encodeCalls := er.2.encodeCalls + 1 }
          match env.encode q with
          | none => ((none : Option (ℚ × Nat)), trackReq st2)
          | some e => searchIndexPhase env (cacheEmbedding st2 now q e) now ckey t k e

end FAQ

namespace FAQ

/-- A JSON value as far as `load_faq` inspects one: a string, a list, or
anything else (numbers, nested objects, null, booleans). -/
inductive JVal where
  | str : String → JVal
  | list : List JVal → JVal
  | other : JVal

/-- One element of the deserialized FAQ file: either not a dictionary, or a
dictionary described by its optional `query`, `response` and `variations`
fields (every other field is never read). -/
inductive RawItem where
  | notDict : RawItem
  | dict (query : Option JVal) (response : Option JVal) (variations : Option JVal) : RawItem

/-- `FAQLoader._validate_faq_item`: the item must be a dictionary with a
truthy string `query` field and a present `response` field. -/
def validateItem : RawItem → Bool
  | .notDict => false
  | .dict q r _ =>
    match q with
    | some (JVal.str s) =>
      if s = "" then false
      else match r with
        | some _ => true
        | none => false
    | _ => false

/-- The strings the main-query step of the `load_faq` loop appends for one
validated item: `str(item['query']).strip()`, kept only when non-empty
after stripping. -/
def mainQueryStrings : RawItem → List String
  | .notDict => []
  | .dict q _ _ =>
    match q with
    | some (JVal.str s) => if pyStrip s ≠ "" then [pyStrip s] else []
    | _ => []

/-- The strings the variations step of the `load_faq` loop appends for one
item: each element of a list-valued `variations` field that is a truthy
string and still non-empty after stripping, in original order (a missing
field defaults to the empty list; a non-list value is skipped). -/
def variationStrings : RawItem → List String
  | .notDict => []
  | .dict _ _ vs =>
    match vs with
    | some (JVal.list l) =>
      l.foldl (fun acc v =>
        match v with
        | JVal.str t =>
          if t ≠ "" then (if pyStrip t ≠ "" then acc ++ [pyStrip t] else acc) else acc
        | _ => acc) []
    | _ => []

/-- The main loop of `FAQLoader.load_faq` over the deserialized items,
carrying (`self.faq`, `self.faq_queries`, `self.original_indices`): an
invalid item is skipped; a valid one is appended to `faq` and its
searchable strings are appended to `faq_queries`, each paired in
`original_indices` with `len(self.faq) - 1`. -/
def loadLoop : List RawItem → List RawItem × List String × List Nat →
    List RawItem × List String × List Nat
  | [], acc => acc
  | item :: rest, (faq, qs, idxs) =>
    if validateItem item then
      let faq2 := faq ++ [item]
      let contrib := mainQueryStrings item ++ variationStrings item
      loadLoop rest (faq2, qs ++ contrib, idxs ++ contrib.map (fun _ => faq2.length - 1))
    else
      loadLoop rest (faq, qs, idxs)

/-- `FAQLoader.load_faq` on an already-deserialized list: raises (modelled
`none`) on an empty input list and when no searchable string survives,
otherwise returns (`faq`, `faq_queries`, `original_indices`). -/
def loadFaq (raw : List RawItem) : Option (List RawItem × List String × List Nat) :=
  if raw.isEmpty then none
  else
    let res := loadLoop raw ([], [], [])
    if res.2.1.isEmpty then none else some res

/-- Declarative form of the searchable-string table: the contributions of
the valid items in order, each string paired with its owning entry index
counted from `base`. -/
def contribFrom (base : Nat) : List RawItem → List (String × Nat)
  | [] => []
  | item :: rest =>
    if validateItem item then
      (mainQueryStrings item ++ variationStrings item).map (fun s => (s, base))
        ++ contribFrom (base + 1) rest
    else contribFrom base rest

/-- A `SearchState` with empty caches of the sizes the source configures
(`query_cache` 500/1800s, `embedding_cache` 1000/3600s) and zeroed
counters. -/
def stEmpty : SearchState Nat :=
  { queryCache := LRUCache.init 500 1800, embCache := LRUCache.init 1000 3600,
    totalRequests := 0, mHits := 0, mMisses := 0, encodeCalls := 0, indexCalls := 0 }

/-- A ready two-entry engine whose index yields two tied candidates, row 0
(owned by entry 1) first. -/
def envTieA : Engine Nat :=
  { faqLen := 2, originalIndices := [1, 0], ntotal := 2, hasIndex := true,
    hasFaq := true, modelLoaded := true, encode := fun _ => some 0,
    indexSearch := fun _ _ => some [(1, 0), (1, 1)], defaultThreshold := 0 }

/-- The same engine with the index yielding the same tied candidates in the
opposite order, row 1 (owned by entry 0) first. -/
def envTieB : Engine Nat :=
  { envTieA with indexSearch := fun _ _ => some [(1, 1), (1, 0)] }

/-- A ready one-entry engine whose embedding model raises on every
query. -/
def envEncodeErr : Engine Nat :=
  { faqLen := 1, originalIndices := [0], ntotal := 1, hasIndex := true,
    hasFaq := true, modelLoaded := true, encode := fun _ => none,
    indexSearch := fun _ _ => some [(1, 0)], defaultThreshold := 0 }

/-- A ready one-entry engine whose only candidate scores similarity 0,
below the threshold 1 used with it. -/
def envLowSim : Engine Nat :=
  { faqLen := 1, originalIndices := [0], ntotal := 1, hasIndex := true,
    hasFaq := true, modelLoaded := true, encode := fun _ => some 0,
    indexSearch := fun _ _ => some [(0, 0)], defaultThreshold := 0 }

/-- A ready one-entry engine with a perfect-similarity candidate; the index
returns its row only when asked for at least one neighbor. -/
def envPerfect : Engine Nat :=
  { faqLen := 1, originalIndices := [0], ntotal := 1, hasIndex := true,
    hasFaq := true, modelLoaded := true, encode := fun _ => some 0,
    indexSearch := fun _ sk => if sk ≥ 1 then some [(1, 0)] else some [],
    defaultThreshold := 0 }

end FAQ

namespace LRUCache

variable {K V : Type} [DecidableEq K]

theorem removeKey_maxSize (c : LRUCache K V) (k : K) :
    (c.removeKey k).maxSize = c.maxSize := rfl

theorem removeKey_ttl (c : LRUCache K V) (k : K) :
    (c.removeKey k).ttlSeconds = c.ttlSeconds := rfl

theorem find?_key_eq_none {l : List (K × V)} {k : K} (h : k ∉ l.map Prod.fst) :
    l.find? (fun p => decide (p.1 = k)) = none := by
  induction l with
  | nil => rfl
  | cons p rest ih =>
    simp only [List.map_cons, List.mem_cons, not_or] at h
    rw [List.find?_cons_of_neg, ih h.2]
    simp only [decide_eq_true_eq]
    exact fun hh => h.1 (hh ▸ rfl)

theorem mem_keys_filter_ne {W : Type} (l : List (K × W)) (a k : K) :
    k ∈ (l.filter (fun p => decide (p.1 ≠ a))).map Prod.fst ↔
      k ∈ l.map Prod.fst ∧ k ≠ a := by
  simp only [List.mem_map, List.mem_filter, decide_eq_true_eq]
  constructor
  · rintro ⟨p, ⟨hp, hne⟩, rfl⟩
    exact ⟨⟨p, hp, rfl⟩, hne⟩
  · rintro ⟨⟨p, hp, rfl⟩, hne⟩
    exact ⟨p, ⟨hp, hne⟩, rfl⟩

theorem lookup1_filter_ne (ts : List (K × Nat)) (a k : K) (h : a ≠ k) :
    lookup1 (ts.filter (fun p => decide (p.1 ≠ a))) k = lookup1 ts k := by
  induction ts with
  | nil => rfl
  | cons p rest ih =>
    by_cases hpa : p.1 = a
    · have hfa : (decide (p.1 ≠ a)) = false := by simp [hpa]
      rw [List.filter_cons, hfa]
      simp only [Bool.false_eq_true, if_false]
      rw [ih]
      unfold lookup1
      rw [List.find?_cons_of_neg]
      simp only [decide_eq_true_eq]
      exact fun hh => h (hpa ▸ hh ▸ rfl)
    · have hta : (decide (p.1 ≠ a)) = true := by simp [hpa]
      rw [List.filter_cons, hta]
      simp only [if_true]
      by_cases hpk : p.1 = k
      · unfold lookup1
        rw [List.find?_cons_of_pos _ (by simp [hpk]), List.find?_cons_of_pos _ (by simp [hpk])]
      · unfold lookup1
        rw [List.find?_cons_of_neg _ (by simp [hpk]), List.find?_cons_of_neg _ (by simp [hpk])]
        exact ih

theorem removeKey_key_not_mem (c : LRUCache K V) (k : K) :
    k ∉ (c.removeKey k).cache.map Prod.fst := by
  unfold removeKey
  intro h
  exact ((mem_keys_filter_ne c.cache k k).mp h).2 rfl

theorem evictFuel_maxSize : ∀ (f : Nat) (c : LRUCache K V),
    (evictFuel f c).maxSize = c.maxSize := by
  intro f
  induction f with
  | zero => intro c; rfl
  | succ n ih =>
    intro c
    unfold evictFuel
    split
    · split
      · rfl
      · rw [ih]; rfl
    · rfl

theorem evictFuel_ttl : ∀ (f : Nat) (c : LRUCache K V),
    (evictFuel f c).ttlSeconds = c.ttlSeconds := by
  intro f
  induction f with
  | zero => intro c; rfl
  | succ n ih =>
    intro c
    unfold evictFuel
    split
    · split
      · rfl
      · rw [ih]; rfl
    · rfl

theorem evictFuel_eq_of_le (f : Nat) (c : LRUCache K V)
    (h : c.cache.length ≤ c.maxSize) : evictFuel f c = c := by
  cases f with
  | zero => rfl
  | succ n =>
    unfold evictFuel
    rw [if_neg (by omega)]

theorem evictFuel_step (f : Nat) (X : LRUCache K V) (p : K × V) (l : List (K × V))
    (hgt : X.cache.length > X.maxSize) (hc : X.cache = p :: l) :
    evictFuel (f + 1) X = evictFuel f (X.removeKey p.1) := by
  conv_lhs => unfold evictFuel
  rw [if_pos hgt, hc]

theorem evictFuel_length_le : ∀ (f : Nat) (c : LRUCache K V), c.cache.length ≤ f →
    (evictFuel f c).cache.length ≤ c.maxSize := by
  intro f
  induction f with
  | zero =>
    intro c h
    rw [show evictFuel 0 c = c from rfl]
    omega
  | succ n ih =>
    intro c h
    by_cases hgt : c.cache.length > c.maxSize
    · cases hc : c.cache with
      | nil => rw [hc] at hgt; simp at hgt
      | cons p rest =>
        rw [evictFuel_step n c p rest hgt hc]
        have hlt : (c.removeKey p.1).cache.length < c.cache.length := by
          apply List.length_filter_lt_length_iff_exists.mpr
          exact ⟨p, by rw [hc]; exact List.mem_cons_self _ _, by simp⟩
        have := ih (c.removeKey p.1) (by omega)
        rw [removeKey_maxSize] at this
        exact this
    · rw [show evictFuel (n + 1) c = c by unfold evictFuel; rw [if_neg hgt]]
      omega

theorem set_maxSize (c : LRUCache K V) (now : Nat) (k : K) (v : V) :
    (c.set now k v).maxSize = c.maxSize := by
  simp only [set]
  rw [evictFuel_maxSize]
  split <;> rfl

theorem set_ttl (c : LRUCache K V) (now : Nat) (k : K) (v : V) :
    (c.set now k v).ttlSeconds = c.ttlSeconds := by
  simp only [set]
  rw [evictFuel_ttl]
  split <;> rfl

theorem set_length_le (c : LRUCache K V) (now : Nat) (k : K) (v : V) :
    (c.set now k v).cache.length ≤ c.maxSize := by
  simp only [set]
  refine le_trans (evictFuel_length_le _ _ le_rfl) (le_of_eq ?_)
  split <;> rfl

theorem any_key_eq_false {l : List (K × V)} {k : K} (h : k ∉ l.map Prod.fst) :
    l.any (fun p => decide (p.1 = k)) = false := by
  rw [List.any_eq_false]
  intro p hp
  simp only [decide_eq_true_eq]
  exact fun hh => h (List.mem_map.mpr ⟨p, hp, hh⟩)

theorem filter_ne_head (p : K × V) (l : List (K × V)) (h : p.1 ∉ l.map Prod.fst) :
    (p :: l).filter (fun q => decide (q.1 ≠ p.1)) = l := by
  rw [List.filter_cons]
  have hd : (decide (p.1 ≠ p.1)) = false := by simp
  rw [hd]
  simp only [Bool.false_eq_true, if_false]
  apply List.filter_eq_self.mpr
  intro q hq
  simp only [decide_eq_true_eq]
  exact fun hh => h (List.mem_map.mpr ⟨q, hq, hh⟩)

theorem set_cache_fresh_lt (c : LRUCache K V) (now : Nat) (k : K) (v : V)
    (hmem : k ∉ c.cache.map Prod.fst) (hlen : c.cache.length < c.maxSize) :
    (c.set now k v).cache = c.cache ++ [(k, v)] := by
  simp only [set, any_key_eq_false hmem, Bool.false_eq_true, if_false]
  rw [evictFuel_eq_of_le]
  simp only [List.length_append, List.length_cons, List.length_nil]
  omega

theorem set_cache_fresh_full (c : LRUCache K V) (now : Nat) (k : K) (v : V)
    (hmem : k ∉ c.cache.map Prod.fst) (hlen : c.cache.length = c.maxSize)
    (hmax : 1 ≤ c.maxSize) (hnd : (c.cache.map Prod.fst).Nodup) :
    (c.set now k v).cache = c.cache.tail ++ [(k, v)] := by
  cases hc : c.cache with
  | nil =>
    rw [hc] at hlen
    simp at hlen
    omega
  | cons p rest =>
    have hrest : p.1 ∉ rest.map Prod.fst := by
      rw [hc] at hnd
      simp only [List.map_cons, List.nodup_cons] at hnd
      exact hnd.1
    have hpk : k ≠ p.1 := by
      intro hh
      apply hmem
      rw [hc, hh]
      simp
    have hcore : ∀ (X : LRUCache K V), X.maxSize = c.maxSize →
        X.cache = c.cache ++ [(k, v)] →
        (evictFuel X.cache.length X).cache = rest ++ [(k, v)] := by
      intro X hXmax hXcache
      have hXlen : X.cache.length = X.maxSize + 1 := by
        rw [hXcache, hXmax]
        simp only [List.length_append, List.length_cons, List.length_nil]
        omega
      have hXc2 : X.cache = p :: (rest ++ [(k, v)]) := by
        rw [hXcache, hc]
        simp
      rw [hXlen, evictFuel_step X.maxSize X p (rest ++ [(k, v)]) (by omega) hXc2]
      have hrk : (X.removeKey p.1).cache = rest ++ [(k, v)] := by
        show X.cache.filter (fun q => decide (q.1 ≠ p.1)) = rest ++ [(k, v)]
        rw [hXc2]
        apply filter_ne_head
        simp only [List.map_append, List.mem_append, List.map_cons, List.map_nil,
          List.mem_singleton]
        rintro (h1 | h2)
        · exact hrest h1
        · exact hpk (h2 ▸ rfl)
      rw [evictFuel_eq_of_le]
      · exact hrk
      · rw [hrk, removeKey_maxSize, hXmax]
        have : rest.length + 1 = c.maxSize := by
          rw [← hlen, hc]
          simp
        simp only [List.length_append, List.length_cons, List.length_nil]
        omega
    simp only [set, any_key_eq_false hmem, Bool.false_eq_true, if_false]
    exact hcore
      { c with cache := c.cache ++ [(k, v)],
               timestamps := (k, now) :: c.timestamps.filter (fun p => decide (p.1 ≠ k)) }
      rfl rfl

end LRUCache

namespace LRUCache

variable {K V : Type} [DecidableEq K]

theorem keys_filter_mono {l : List (K × V)} {f : K × V → Bool} {k : K}
    (h : k ∉ l.map Prod.fst) : k ∉ (l.filter f).map Prod.fst := by
  intro hk
  apply h
  simp only [List.mem_map] at hk ⊢
  obtain ⟨p, hp, rfl⟩ := hk
  exact ⟨p, (List.mem_filter.mp hp).1, rfl⟩

theorem not_mem_of_any_eq_false {l : List (K × V)} {k : K}
    (h : l.any (fun p => decide (p.1 = k)) = false) : k ∉ l.map Prod.fst := by
  rw [List.any_eq_false] at h
  intro hk
  obtain ⟨p, hp, rfl⟩ := List.mem_map.mp hk
  exact h p hp (by simp)

theorem lookup1_cons_self (k : K) (n : Nat) (ts : List (K × Nat)) :
    lookup1 ((k, n) :: ts) k = some n := by
  unfold lookup1
  rw [List.find?_cons_of_pos _ (by simp)]

theorem evictFuel_keeps_last :
    ∀ (f : Nat) (c : LRUCache K V) (l : List (K × V)) (k : K) (v : V),
    c.cache = l ++ [(k, v)] → k ∉ l.map Prod.fst → 1 ≤ c.maxSize →
    ∃ l2 : List (K × V),
      (evictFuel f c).cache = l2 ++ [(k, v)] ∧ k ∉ l2.map Prod.fst ∧
      lookup1 (evictFuel f c).timestamps k = lookup1 c.timestamps k ∧
      (evictFuel f c).ttlSeconds = c.ttlSeconds := by
  intro f
  induction f with
  | zero =>
    intro c l k v hc hl _
    exact ⟨l, hc, hl, rfl, rfl⟩
  | succ n ih =>
    intro c l k v hc hl hmax
    by_cases hgt : c.cache.length > c.maxSize
    · cases hlc : l with
      | nil =>
        rw [hlc] at hc
        rw [hc] at hgt
        simp at hgt
        omega
      | cons p l' =>
        rw [hlc] at hc hl
        simp only [List.map_cons, List.mem_cons, not_or] at hl
        have hpk : p.1 ≠ k := fun hh => hl.1 (hh ▸ rfl)
        have hc2 : c.cache = p :: (l' ++ [(k, v)]) := by rw [hc]; simp
        rw [evictFuel_step n c p (l' ++ [(k, v)]) hgt hc2]
        have hrk : (c.removeKey p.1).cache = l'.filter (fun q => decide (q.1 ≠ p.1)) ++ [(k, v)] := by
          show c.cache.filter (fun q => decide (q.1 ≠ p.1)) = _
          rw [hc2, List.filter_cons]
          have hd : (decide (p.1 ≠ p.1)) = false := by simp
          rw [hd]
          simp only [Bool.false_eq_true, if_false, List.filter_append]
          have hkv : ([(k, v)].filter (fun q => decide (q.1 ≠ p.1))) = [(k, v)] := by
            simp [Ne.symm hpk]
          rw [hkv]
        obtain ⟨l2, h1, h2, h3, h4⟩ :=
          ih (c.removeKey p.1) (l'.filter (fun q => decide (q.1 ≠ p.1))) k v hrk
            (keys_filter_mono hl.2) (by rw [removeKey_maxSize]; exact hmax)
        refine ⟨l2, h1, h2, ?_, by rw [h4]; rfl⟩
        rw [h3]
        show lookup1 (c.timestamps.filter (fun q => decide (q.1 ≠ p.1))) k = _
        rw [lookup1_filter_ne _ _ _ hpk]
    · have hstop : evictFuel (n + 1) c = c := by
        unfold evictFuel
        rw [if_neg hgt]
      rw [hstop]
      exact ⟨l, hc, hl, rfl, rfl⟩

theorem get_miss_absent (c : LRUCache K V) (now : Nat) (key : K)
    (h : c.cache.find? (fun p => decide (p.1 = key)) = none) :
    c.get now key = (none, { c with misses := c.misses + 1 }) := by
  simp only [get, h]

theorem get_stale (c : LRUCache K V) (now : Nat) (key : K) (entry : K × V) (ts : Nat)
    (hf : c.cache.find? (fun p => decide (p.1 = key)) = some entry)
    (hts : lookup1 c.timestamps key = some ts)
    (hexp : c.ttlSeconds ≤ now - ts) :
    c.get now key = (none, { c.removeKey key with misses := c.misses + 1 }) := by
  simp only [get, hf, hts]
  rw [if_neg (by omega)]

theorem get_no_ts (c : LRUCache K V) (now : Nat) (key : K) (entry : K × V)
    (hf : c.cache.find? (fun p => decide (p.1 = key)) = some entry)
    (hts : lookup1 c.timestamps key = none) :
    c.get now key = (none, { c.removeKey key with misses := c.misses + 1 }) := by
  simp only [get, hf, hts]

theorem get_fresh (c : LRUCache K V) (now : Nat) (key : K) (entry : K × V) (ts : Nat)
    (hf : c.cache.find? (fun p => decide (p.1 = key)) = some entry)
    (hts : lookup1 c.timestamps key = some ts)
    (hfr : now - ts < c.ttlSeconds) :
    c.get now key = (some entry.2,
      { c with cache := c.cache.filter (fun p => decide (p.1 ≠ key)) ++ [(key, entry.2)],
               hits := c.hits + 1 }) := by
  simp only [get, hf, hts]
  rw [if_pos hfr]

theorem get_maxSize (c : LRUCache K V) (now : Nat) (key : K) :
    ((c.get now key).2).maxSize = c.maxSize := by
  unfold get
  split
  · split
    · split
      · rfl
      · rfl
    · rfl
  · rfl

theorem get_ttl (c : LRUCache K V) (now : Nat) (key : K) :
    ((c.get now key).2).ttlSeconds = c.ttlSeconds := by
  unfold get
  split
  · split
    · split
      · rfl
      · rfl
    · rfl
  · rfl

theorem get_length_le (c : LRUCache K V) (now : Nat) (key : K) :
    ((c.get now key).2).cache.length ≤ c.cache.length := by
  rcases hf : c.cache.find? (fun p => decide (p.1 = key)) with _ | entry
  · rw [get_miss_absent c now key hf]
  · have hmem : entry ∈ c.cache := List.mem_of_find?_eq_some hf
    have hpred : (decide (entry.1 ≠ key)) = false := by
      have := List.find?_some hf
      simp only [decide_eq_true_eq] at this
      simp [this]
    have hlt : (c.cache.filter (fun p => decide (p.1 ≠ key))).length < c.cache.length :=
      List.length_filter_lt_length_iff_exists.mpr ⟨entry, hmem, by simp [hpred]⟩
    rcases hts : lookup1 c.timestamps key with _ | ts
    · rw [get_no_ts c now key entry hf hts]
      exact le_trans (List.length_filter_le _ _) le_rfl
    · by_cases hfr : now - ts < c.ttlSeconds
      · rw [get_fresh c now key entry ts hf hts hfr]
        simp only [List.length_append, List.length_cons, List.length_nil]
        omega
      · rw [get_stale c now key entry ts hf hts (by omega)]
        exact le_trans (List.length_filter_le _ _) le_rfl

theorem get_set_self_aux (c1 : LRUCache K V) (now : Nat) (k : K) (v : V)
    (hfresh : k ∉ c1.cache.map Prod.fst) (hmax : 1 ≤ c1.maxSize) (httl : 0 < c1.ttlSeconds) :
    ((evictFuel (c1.cache ++ [(k, v)]).length
        { c1 with cache := c1.cache ++ [(k, v)],
                  timestamps := (k, now) :: c1.timestamps.filter (fun p => decide (p.1 ≠ k)) }).get
      now k).1 = some v := by
  obtain ⟨l2, hcache, hl2, hts, httlX⟩ :=
    evictFuel_keeps_last (c1.cache ++ [(k, v)]).length
      { c1 with cache := c1.cache ++ [(k, v)],
                timestamps := (k, now) :: c1.timestamps.filter (fun p => decide (p.1 ≠ k)) }
      c1.cache k v rfl hfresh hmax
  have hfind : (l2 ++ [(k, v)]).find? (fun p => decide (p.1 = k)) = some (k, v) := by
    rw [List.find?_append, find?_key_eq_none hl2]
    simp
  have htsv : lookup1 (evictFuel (c1.cache ++ [(k, v)]).length
      { c1 with cache := c1.cache ++ [(k, v)],
                timestamps := (k, now) :: c1.timestamps.filter (fun p => decide (p.1 ≠ k)) }).timestamps k
      = some now := by
    rw [hts]
    exact lookup1_cons_self k now _
  simp only [get, hcache, hfind, htsv]
  rw [if_pos (by rw [httlX]; show now - now < c1.ttlSeconds; omega)]

theorem get_set_self (c : LRUCache K V) (now : Nat) (k : K) (v : V)
    (hmax : 1 ≤ c.maxSize) (httl : 0 < c.ttlSeconds) :
    ((c.set now k v).get now k).1 = some v := by
  simp only [set]
  by_cases hany : c.cache.any (fun p => decide (p.1 = k)) = true
  · rw [if_pos hany]
    exact get_set_self_aux (c.removeKey k) now k v (removeKey_key_not_mem c k) hmax httl
  · rw [if_neg hany]
    exact get_set_self_aux c now k v
      (not_mem_of_any_eq_false (Bool.eq_false_iff.mpr hany)) hmax httl

end LRUCache

namespace LRUCache

variable {K V : Type} [DecidableEq K]

theorem foldl_set_fresh (now : Nat) (v : V) :
    ∀ (keys : List K) (c : LRUCache K V),
      (∀ k ∈ keys, k ∉ c.cache.map Prod.fst) → keys.Nodup →
      c.cache.length + keys.length ≤ c.maxSize →
      (keys.foldl (fun acc k => acc.set now k v) c).cache
          = c.cache ++ keys.map (fun k => (k, v)) ∧
        (keys.foldl (fun acc k => acc.set now k v) c).maxSize = c.maxSize := by
  intro keys
  induction keys with
  | nil =>
    intro c _ _ _
    simp
  | cons k ks ih =>
    intro c hfresh hnd hlen
    simp only [List.length_cons] at hlen
    simp only [List.nodup_cons] at hnd
    have hA : (c.set now k v).cache = c.cache ++ [(k, v)] :=
      set_cache_fresh_lt c now k v (hfresh k (by simp)) (by omega)
    have hmax : (c.set now k v).maxSize = c.maxSize := set_maxSize c now k v
    have hfresh2 : ∀ k2 ∈ ks, k2 ∉ (c.set now k v).cache.map Prod.fst := by
      intro k2 hk2
      rw [hA]
      simp only [List.map_append, List.mem_append, List.map_cons, List.map_nil,
        List.mem_singleton, not_or]
      constructor
      · exact hfresh k2 (by simp [hk2])
      · intro hh
        exact hnd.1 (hh ▸ hk2)
    have hlen2 : (c.set now k v).cache.length + ks.length ≤ (c.set now k v).maxSize := by
      rw [hA, hmax]
      simp only [List.length_append, List.length_cons, List.length_nil]
      omega
    obtain ⟨ih1, ih2⟩ := ih (c.set now k v) hfresh2 hnd.2 hlen2
    constructor
    · simp only [List.foldl_cons]
      rw [ih1, hA]
      simp
    · simp only [List.foldl_cons]
      rw [ih2, hmax]

theorem runOps_length_le :
    ∀ (ops : List (Op K V)) (c : LRUCache K V), c.cache.length ≤ c.maxSize →
      (runOps c ops).cache.length ≤ c.maxSize ∧ (runOps c ops).maxSize = c.maxSize := by
  intro ops
  induction ops with
  | nil =>
    intro c h
    exact ⟨h, rfl⟩
  | cons op rest ih =>
    intro c h
    cases op with
    | get now key =>
      have h2 : ((c.get now key).2).cache.length ≤ ((c.get now key).2).maxSize := by
        rw [get_maxSize]
        exact le_trans (get_length_le c now key) h
      obtain ⟨ih1, ih2⟩ := ih ((c.get now key).2) h2
      rw [get_maxSize] at ih1 ih2
      exact ⟨ih1, ih2⟩
    | set now key v =>
      have h2 : (c.set now key v).cache.length ≤ (c.set now key v).maxSize := by
        rw [set_maxSize]
        exact set_length_le c now key v
      obtain ⟨ih1, ih2⟩ := ih (c.set now key v) h2
      rw [set_maxSize] at ih1 ih2
      exact ⟨ih1, ih2⟩
    | clear =>
      have h2 : (c.clear).cache.length ≤ (c.clear).maxSize := by
        show (0 : Nat) ≤ c.maxSize
        omega
      obtain ⟨ih1, ih2⟩ := ih c.clear h2
      exact ⟨ih1, ih2⟩

theorem sameKeys_removeKey {c : LRUCache K V} (h : SameKeys c) (a : K) :
    SameKeys (c.removeKey a) := by
  intro k
  show k ∈ (c.cache.filter _).map Prod.fst ↔ k ∈ (c.timestamps.filter _).map Prod.fst
  rw [mem_keys_filter_ne, mem_keys_filter_ne, h k]

theorem sameKeys_get {c : LRUCache K V} (h : SameKeys c) (now : Nat) (key : K) :
    SameKeys ((c.get now key).2) := by
  rcases hf : c.cache.find? (fun p => decide (p.1 = key)) with _ | entry
  · rw [get_miss_absent c now key hf]
    exact h
  · have hkey : key ∈ c.cache.map Prod.fst := by
      have hmem : entry ∈ c.cache := List.mem_of_find?_eq_some hf
      have hk : entry.1 = key := by
        have := List.find?_some hf
        simpa using this
      exact List.mem_map.mpr ⟨entry, hmem, hk⟩
    rcases hts : lookup1 c.timestamps key with _ | ts
    · rw [get_no_ts c now key entry hf hts]
      exact sameKeys_removeKey h key
    · by_cases hfr : now - ts < c.ttlSeconds
      · rw [get_fresh c now key entry ts hf hts hfr]
        intro k
        show k ∈ (c.cache.filter _ ++ [(key, entry.2)]).map Prod.fst ↔
          k ∈ c.timestamps.map Prod.fst
        simp only [List.map_append, List.mem_append, List.map_cons, List.map_nil,
          List.mem_singleton]
        rw [mem_keys_filter_ne]
        constructor
        · rintro (⟨h1, _⟩ | rfl)
          · exact (h k).mp h1
          · exact (h k).mp hkey
        · intro h1
          by_cases hk : k = key
          · exact Or.inr hk
          · exact Or.inl ⟨(h k).mpr h1, hk⟩
      · rw [get_stale c now key entry ts hf hts (by omega)]
        exact sameKeys_removeKey h key

theorem sameKeys_evictFuel {c : LRUCache K V} (h : SameKeys c) :
    ∀ f : Nat, SameKeys (evictFuel f c) := by
  suffices hgen : ∀ (f : Nat) (c : LRUCache K V), SameKeys c → SameKeys (evictFuel f c) by
    intro f
    exact hgen f c h
  intro f
  induction f with
  | zero =>
    intro c h
    exact h
  | succ n ih =>
    intro c h
    unfold evictFuel
    split
    · split
      · exact h
      · exact ih _ (sameKeys_removeKey h _)
    · exact h

theorem sameKeys_set {c : LRUCache K V} (h : SameKeys c) (now : Nat) (key : K) (v : V) :
    SameKeys (c.set now key v) := by
  simp only [set]
  apply sameKeys_evictFuel
  have h1 : SameKeys (if c.cache.any (fun p => decide (p.1 = key)) then c.removeKey key else c) := by
    split
    · exact sameKeys_removeKey h key
    · exact h
  intro k
  show k ∈ (_ ++ [(key, v)]).map Prod.fst ↔
    k ∈ ((key, now) :: List.filter _ _).map Prod.fst
  simp only [List.map_append, List.mem_append, List.map_cons, List.map_nil,
    List.mem_singleton, List.mem_cons, List.not_mem_nil, or_false]
  rw [mem_keys_filter_ne]
  constructor
  · rintro (h2 | rfl)
    · by_cases hk : k = key
      · exact Or.inl hk
      · exact Or.inr ⟨(h1 k).mp h2, hk⟩
    · exact Or.inl rfl
  · rintro (rfl | ⟨h2, _⟩)
    · exact Or.inr rfl
    · exact Or.inl ((h1 k).mpr h2)

theorem sameKeys_clear (c : LRUCache K V) : SameKeys (c.clear) :=
  fun _ => Iff.rfl

theorem sameKeys_runOps :
    ∀ (ops : List (Op K V)) (c : LRUCache K V), SameKeys c → SameKeys (runOps c ops) := by
  intro ops
  induction ops with
  | nil =>
    intro c h
    exact h
  | cons op rest ih =>
    intro c h
    cases op with
    | get now key => exact ih _ (sameKeys_get h now key)
    | set now key v => exact ih _ (sameKeys_set h now key v)
    | clear => exact ih _ (sameKeys_clear c)

end LRUCache

/-- C3: for every sequence of get/set operations the number of stored
entries never exceeds the configured maximum, and inserting maxSize + 1
distinct keys into an empty cache leaves exactly maxSize entries, the
evicted key being the least-recently-used (first-inserted) one. -/
theorem lru_size_bounded_and_lru_evicted (K V : Type) [DecidableEq K] :
    (∀ (c : LRUCache K V) (ops : List (LRUCache.Op K V)),
        c.cache.length ≤ c.maxSize →
        (LRUCache.runOps c ops).cache.length ≤ c.maxSize) ∧
    (∀ (m : Nat) (keys : List K) (v : V) (now ttl : Nat), 1 ≤ m → keys.Nodup →
        keys.length = m + 1 →
        (keys.foldl (fun acc k => acc.set now k v)
            (LRUCache.init m ttl)).cache.map Prod.fst = keys.drop 1 ∧
          (keys.foldl (fun acc k => acc.set now k v)
            (LRUCache.init m ttl)).cache.length = m) := by
  constructor
  · intro c ops h
    exact (LRUCache.runOps_length_le ops c h).1
  · intro m keys v now ttl hm hnd hlen
    have hne : keys ≠ [] := by
      intro hh
      rw [hh] at hlen
      simp at hlen
    obtain ⟨ks, klast, rfl⟩ : ∃ ks klast, keys = ks ++ [klast] :=
      ⟨keys.dropLast, keys.getLast hne, (List.dropLast_append_getLast hne).symm⟩
    have hkslen : ks.length = m := by
      simp only [List.length_append, List.length_cons, List.length_nil] at hlen
      omega
    have hnd2 : ks.Nodup ∧ klast ∉ ks := by
      rw [List.nodup_append] at hnd
      refine ⟨hnd.1, fun hh => ?_⟩
      exact hnd.2.2 hh (List.mem_singleton.mpr rfl)
    rw [List.foldl_append]
    have hmid := LRUCache.foldl_set_fresh now v ks (LRUCache.init m ttl)
      (by intro k _ hk; simp [LRUCache.init] at hk) hnd2.1
      (by simp [LRUCache.init]; omega)
    simp only [List.foldl_cons, List.foldl_nil]
    have hmidkeys : ((ks.foldl (fun acc k => acc.set now k v)
        (LRUCache.init m ttl)).cache).map Prod.fst = ks := by
      rw [hmid.1]
      simp only [LRUCache.init, List.nil_append, List.map_map]
      rw [show (Prod.fst ∘ fun k => (k, v)) = id from rfl, List.map_id]
    cases hks : ks with
    | nil => rw [hks] at hkslen; simp at hkslen; omega
    | cons a ks2 =>
      rw [← hks]
      have hfull := LRUCache.set_cache_fresh_full
        (ks.foldl (fun acc k => acc.set now k v) (LRUCache.init m ttl)) now klast v
        (by rw [hmidkeys]; exact hnd2.2)
        (by rw [hmid.1, hmid.2]; simp [LRUCache.init]; omega)
        (by rw [hmid.2]; simpa [LRUCache.init] using hm)
        (by rw [hmidkeys]; exact hnd2.1)
      rw [hfull, hmid.1]
      simp only [LRUCache.init, List.nil_append, hks, List.map_cons, List.tail_cons]
      constructor
      · simp only [List.map_append, List.map_cons, List.map_nil, List.map_map]
        rw [show (Prod.fst ∘ fun k => (k, v)) = id from rfl, List.map_id]
        simp
      · simp only [List.length_append, List.length_map, List.length_cons, List.length_nil]
        rw [hks] at hkslen
        simp only [List.length_cons] at hkslen
        omega

/-- C3 witness: a concrete operation sequence stays within the bound, and
inserting three distinct keys into a two-slot cache leaves the last two. -/
theorem lru_size_bounded_and_lru_evicted_witness :
    (LRUCache.runOps (LRUCache.init 2 10 : LRUCache Nat Nat)
        [LRUCache.Op.set 0 1 11, LRUCache.Op.get 0 1, LRUCache.Op.set 0 2 22,
         LRUCache.Op.set 0 3 33]).cache.length ≤ 2 ∧
    (([10, 20, 30] : List Nat).foldl (fun acc k => acc.set 0 k (5 : Nat))
        (LRUCache.init 2 7)).cache.map Prod.fst = [20, 30] := by
  constructor
  · exact (lru_size_bounded_and_lru_evicted Nat Nat).1 (LRUCache.init 2 10) _ (by decide)
  · exact ((lru_size_bounded_and_lru_evicted Nat Nat).2 2 [10, 20, 30] 5 0 7
      (by decide) (by decide) (by decide)).1

/-- C4: a get on an absent key is a miss leaving the entries unchanged; a
get on a present key whose age reaches the TTL is a miss that evicts the
entry (the key is gone and the size shrinks); a get on a present fresh key
is a hit returning the stored value and moving it to the
most-recently-used end. -/
theorem lru_get_ttl_contract (K V : Type) [DecidableEq K]
    (c : LRUCache K V) (now : Nat) (key : K) :
    (c.cache.find? (fun p => decide (p.1 = key)) = none →
      (c.get now key).1 = none ∧ ((c.get now key).2).cache = c.cache ∧
        ((c.get now key).2).misses = c.misses + 1) ∧
    (∀ entry ts, c.cache.find? (fun p => decide (p.1 = key)) = some entry →
      LRUCache.lookup1 c.timestamps key = some ts → c.ttlSeconds ≤ now - ts →
      (c.get now key).1 = none ∧
        key ∉ ((c.get now key).2).cache.map Prod.fst ∧
        ((c.get now key).2).cache.length < c.cache.length ∧
        ((c.get now key).2).misses = c.misses + 1) ∧
    (∀ entry ts, c.cache.find? (fun p => decide (p.1 = key)) = some entry →
      LRUCache.lookup1 c.timestamps key = some ts → now - ts < c.ttlSeconds →
      (c.get now key).1 = some entry.2 ∧
        ((c.get now key).2).cache.getLast? = some (key, entry.2) ∧
        ((c.get now key).2).hits = c.hits + 1) := by
  refine ⟨?_, ?_, ?_⟩
  · intro h
    rw [LRUCache.get_miss_absent c now key h]
    exact ⟨rfl, rfl, rfl⟩
  · intro entry ts hf hts hexp
    rw [LRUCache.get_stale c now key entry ts hf hts hexp]
    have hmem : entry ∈ c.cache := List.mem_of_find?_eq_some hf
    have hpred : (decide (entry.1 ≠ key)) = false := by
      have := List.find?_some hf
      simp only [decide_eq_true_eq] at this
      simp [this]
    refine ⟨rfl, LRUCache.removeKey_key_not_mem c key, ?_, rfl⟩
    exact List.length_filter_lt_length_iff_exists.mpr ⟨entry, hmem, by simp [hpred]⟩
  · intro entry ts hf hts hfr
    rw [LRUCache.get_fresh c now key entry ts hf hts hfr]
    refine ⟨rfl, ?_, rfl⟩
    show (List.filter _ c.cache ++ [(key, entry.2)]).getLast? = some (key, entry.2)
    rw [List.getLast?_concat]

/-- C4 witness: the three cases at concrete caches (absent key; a key aged
exactly to the TTL; the same key one tick before the TTL). -/
theorem lru_get_ttl_contract_witness :
    (((LRUCache.init 2 5 : LRUCache Nat Nat).get 0 7).1 = none ∧
      (((LRUCache.init 2 5 : LRUCache Nat Nat).get 0 7).2).cache =
        (LRUCache.init 2 5 : LRUCache Nat Nat).cache ∧
      (((LRUCache.init 2 5 : LRUCache Nat Nat).get 0 7).2).misses =
        (LRUCache.init 2 5 : LRUCache Nat Nat).misses + 1) ∧
    ((((LRUCache.init 2 5 : LRUCache Nat Nat).set 0 7 1).get 5 7).1 = none ∧
      7 ∉ ((((LRUCache.init 2 5 : LRUCache Nat Nat).set 0 7 1).get 5 7).2).cache.map Prod.fst ∧
      ((((LRUCache.init 2 5 : LRUCache Nat Nat).set 0 7 1).get 5 7).2).cache.length <
        ((LRUCache.init 2 5 : LRUCache Nat Nat).set 0 7 1).cache.length ∧
      ((((LRUCache.init 2 5 : LRUCache Nat Nat).set 0 7 1).get 5 7).2).misses =
        ((LRUCache.init 2 5 : LRUCache Nat Nat).set 0 7 1).misses + 1) ∧
    ((((LRUCache.init 2 5 : LRUCache Nat Nat).set 0 7 1).get 4 7).1 = some 1 ∧
      ((((LRUCache.init 2 5 : LRUCache Nat Nat).set 0 7 1).get 4 7).2).cache.getLast? =
        some (7, 1) ∧
      ((((LRUCache.init 2 5 : LRUCache Nat Nat).set 0 7 1).get 4 7).2).hits =
        ((LRUCache.init 2 5 : LRUCache Nat Nat).set 0 7 1).hits + 1) := by
  refine ⟨?_, ?_, ?_⟩
  · exact (lru_get_ttl_contract Nat Nat (LRUCache.init 2 5) 0 7).1 (by decide)
  · exact (lru_get_ttl_contract Nat Nat ((LRUCache.init 2 5).set 0 7 1) 5 7).2.1
      (7, 1) 0 (by decide) (by decide) (by decide)
  · exact (lru_get_ttl_contract Nat Nat ((LRUCache.init 2 5).set 0 7 1) 4 7).2.2
      (7, 1) 0 (by decide) (by decide) (by decide)

/-- C10: starting from any cache whose value map and timestamp map hold the
same keys, every sequence of get/set/clear operations preserves that
alignment: no key ever has a value without a timestamp or vice versa. -/
theorem lru_value_and_timestamp_keys_aligned (K V : Type) [DecidableEq K]
    (c : LRUCache K V) (ops : List (LRUCache.Op K V))
    (h : LRUCache.SameKeys c) : LRUCache.SameKeys (LRUCache.runOps c ops) :=
  LRUCache.sameKeys_runOps ops c h

/-- C10 witness: a concrete mixed sequence of operations on an initially
empty cache keeps the two key sets aligned. -/
theorem lru_value_and_timestamp_keys_aligned_witness :
    LRUCache.SameKeys (LRUCache.runOps (LRUCache.init 2 5 : LRUCache Nat Nat)
      [LRUCache.Op.set 0 1 4, LRUCache.Op.get 0 1, LRUCache.Op.set 0 2 6,
       LRUCache.Op.get 9 1, LRUCache.Op.clear, LRUCache.Op.set 1 3 8]) :=
  lru_value_and_timestamp_keys_aligned Nat Nat (LRUCache.init 2 5) _
    (fun _ => Iff.rfl)

namespace FAQ

variable {E : Type}

theorem getCachedQueryResult_of_get (st : SearchState E) (now : Nat)
    (key : String × Int × ℚ) :
    getCachedQueryResult st now key =
      match (st.queryCache.get now key).1 with
      | some v => (some v,
          { st with queryCache := (st.queryCache.get now key).2, mHits := st.mHits + 1 })
      | none => (none,
          { st with queryCache := (st.queryCache.get now key).2,
                    mMisses := st.mMisses + 1 }) := rfl

theorem getCachedEmbedding_of_get (st : SearchState E) (now : Nat) (text : String) :
    getCachedEmbedding st now text =
      ((st.embCache.get now (embKey text)).1,
        { st with embCache := (st.embCache.get now (embKey text)).2 }) := rfl

theorem validThreshold_of_out (env : Engine E) (t : ℚ) (h : ¬(0 ≤ t ∧ t ≤ 1)) :
    validThreshold env t = env.defaultThreshold := if_neg h

theorem validThreshold_of_in (env : Engine E) (t : ℚ) (h : 0 ≤ t ∧ t ≤ 1) :
    validThreshold env t = t := if_pos h

theorem search_empty_query (env : Engine E) (st : SearchState E) (now : Nat)
    (query : String) (k : Int) (threshold : ℚ) (hq : pyStrip query = "") :
    search env st now query k threshold = (none, trackReq st) := by
  simp only [search, hq, if_pos]

theorem search_cache_hit (env : Engine E) (st : SearchState E) (now : Nat)
    (query : String) (k : Int) (threshold : ℚ) (r : Option (ℚ × Nat))
    (hq : pyStrip query ≠ "")
    (h : (st.queryCache.get now (queryKey (pyStrip query) k threshold)).1 = some r) :
    search env st now query k threshold =
      (r, trackReq { st with
        queryCache := (st.queryCache.get now (queryKey (pyStrip query) k threshold)).2,
        mHits := st.mHits + 1 }) := by
  simp only [search, hq, getCachedQueryResult_of_get, h]
  simp

theorem search_no_index (env : Engine E) (st : SearchState E) (now : Nat)
    (query : String) (k : Int) (threshold : ℚ)
    (hq : pyStrip query ≠ "")
    (hmiss : (st.queryCache.get now (queryKey (pyStrip query) k threshold)).1 = none)
    (h : env.hasIndex = false) :
    search env st now query k threshold =
      (none, trackReq { st with
        queryCache := (st.queryCache.get now (queryKey (pyStrip query) k threshold)).2,
        mMisses := st.mMisses + 1 }) := by
  simp only [search, hq, getCachedQueryResult_of_get, hmiss, h]
  simp

theorem search_no_faq (env : Engine E) (st : SearchState E) (now : Nat)
    (query : String) (k : Int) (threshold : ℚ)
    (hq : pyStrip query ≠ "")
    (hmiss : (st.queryCache.get now (queryKey (pyStrip query) k threshold)).1 = none)
    (hidx : env.hasIndex = true) (h : env.hasFaq = false) :
    search env st now query k threshold =
      (none, trackReq { st with
        queryCache := (st.queryCache.get now (queryKey (pyStrip query) k threshold)).2,
        mMisses := st.mMisses + 1 }) := by
  simp only [search, hq, getCachedQueryResult_of_get, hmiss, hidx, h]
  simp

theorem search_no_model (env : Engine E) (st : SearchState E) (now : Nat)
    (query : String) (k : Int) (threshold : ℚ)
    (hq : pyStrip query ≠ "")
    (hmiss : (st.queryCache.get now (queryKey (pyStrip query) k threshold)).1 = none)
    (hidx : env.hasIndex = true) (hfaq : env.hasFaq = true) (h : env.modelLoaded = false) :
    search env st now query k threshold =
      (none, trackReq { st with
        queryCache := (st.queryCache.get now (queryKey (pyStrip query) k threshold)).2,
        mMisses := st.mMisses + 1 }) := by
  simp only [search, hq, getCachedQueryResult_of_get, hmiss, hidx, hfaq, h]
  simp

theorem search_to_phase_emb_hit (env : Engine E) (st : SearchState E) (now : Nat)
    (query : String) (k : Int) (threshold : ℚ) (e : E)
    (hq : pyStrip query ≠ "")
    (hmiss : (st.queryCache.get now (queryKey (pyStrip query) k threshold)).1 = none)
    (hidx : env.hasIndex = true) (hfaq : env.hasFaq = true) (hml : env.modelLoaded = true)
    (hemb : (st.embCache.get now (embKey (pyStrip query))).1 = some e) :
    search env st now query k threshold =
      searchIndexPhase env
        { st with
          queryCache := (st.queryCache.get now (queryKey (pyStrip query) k threshold)).2,
          mMisses := st.mMisses + 1,
          embCache := (st.embCache.get now (embKey (pyStrip query))).2 }
        now (queryKey (pyStrip query) k threshold) (validThreshold env threshold) k e := by
  simp only [search, hq, getCachedQueryResult_of_get, hmiss, hidx, hfaq, hml,
    getCachedEmbedding_of_get, hemb]
  simp

theorem search_to_phase_encode (env : Engine E) (st : SearchState E) (now : Nat)
    (query : String) (k : Int) (threshold : ℚ) (e : E)
    (hq : pyStrip query ≠ "")
    (hmiss : (st.queryCache.get now (queryKey (pyStrip query) k threshold)).1 = none)
    (hidx : env.hasIndex = true) (hfaq : env.hasFaq = true) (hml : env.modelLoaded = true)
    (hembmiss : (st.embCache.get now (embKey (pyStrip query))).1 = none)
    (henc : env.encode (pyStrip query) = some e) :
    search env st now query k threshold =
      searchIndexPhase env
        (cacheEmbedding
          { st with
            queryCache := (st.queryCache.get now (queryKey (pyStrip query) k threshold)).2,
            mMisses := st.mMisses + 1,
            embCache := (st.embCache.get now (embKey (pyStrip query))).2,
            encodeCalls := st.encodeCalls + 1 }
          now (pyStrip query) e)
        now (queryKey (pyStrip query) k threshold) (validThreshold env threshold) k e := by
  simp only [search, hq, getCachedQueryResult_of_get, hmiss, hidx, hfaq, hml,
    getCachedEmbedding_of_get, hembmiss, henc]
  simp

theorem search_encode_fail (env : Engine E) (st : SearchState E) (now : Nat)
    (query : String) (k : Int) (threshold : ℚ)
    (hq : pyStrip query ≠ "")
    (hmiss : (st.queryCache.get now (queryKey (pyStrip query) k threshold)).1 = none)
    (hidx : env.hasIndex = true) (hfaq : env.hasFaq = true) (hml : env.modelLoaded = true)
    (hembmiss : (st.embCache.get now (embKey (pyStrip query))).1 = none)
    (henc : env.encode (pyStrip query) = none) :
    search env st now query k threshold =
      (none, trackReq { st with
        queryCache := (st.queryCache.get now (queryKey (pyStrip query) k threshold)).2,
        mMisses := st.mMisses + 1,
        embCache := (st.embCache.get now (embKey (pyStrip query))).2,
        encodeCalls := st.encodeCalls + 1 }) := by
  simp only [search, hq, getCachedQueryResult_of_get, hmiss, hidx, hfaq, hml,
    getCachedEmbedding_of_get, hembmiss, henc]
  simp

theorem phase_index_fail (env : Engine E) (st : SearchState E) (now : Nat)
    (ckey : String × Int × ℚ) (t : ℚ) (k : Int) (e : E)
    (h : env.indexSearch e (min k (env.ntotal : Int)) = none) :
    searchIndexPhase env st now ckey t k e =
      (none, trackReq { st with indexCalls := st.indexCalls + 1 }) := by
  simp only [searchIndexPhase, h]

theorem phase_with_cands (env : Engine E) (st : SearchState E) (now : Nat)
    (ckey : String × Int × ℚ) (t : ℚ) (k : Int) (e : E) (cands : List (ℚ × Int))
    (h : env.indexSearch e (min k (env.ntotal : Int)) = some cands)
    (hne : cands ≠ []) :
    searchIndexPhase env st now ckey t k e =
      ((match sortDesc (filterLoop env t k cands) with
        | [] => none
        | best :: _ => some best),
       trackReq (cacheQueryResult { st with indexCalls := st.indexCalls + 1 } now ckey
        (match sortDesc (filterLoop env t k cands) with
          | [] => none
          | best :: _ => some best))) := by
  simp only [searchIndexPhase, h]
  rw [if_neg (by simpa using hne)]

theorem phase_empty_cands (env : Engine E) (st : SearchState E) (now : Nat)
    (ckey : String × Int × ℚ) (t : ℚ) (k : Int) (e : E)
    (h : env.indexSearch e (min k (env.ntotal : Int)) = some []) :
    searchIndexPhase env st now ckey t k e =
      (none, trackReq (cacheQueryResult { st with indexCalls := st.indexCalls + 1 }
        now ckey none)) := by
  simp only [searchIndexPhase, h]
  simp

theorem searchIndexPhase_fst (env : Engine E) (st : SearchState E) (now : Nat)
    (ckey : String × Int × ℚ) (t : ℚ) (k : Int) (e : E) :
    (searchIndexPhase env st now ckey t k e).1 = phaseResult env t k e := by
  simp only [searchIndexPhase, phaseResult]
  split
  · rfl
  · split
    · rfl
    · split <;> rfl

end FAQ

namespace FAQ

variable {E : Type}

theorem insertDesc_ne_nil (x : ℚ × Nat) (l : List (ℚ × Nat)) : insertDesc x l ≠ [] := by
  cases l with
  | nil => simp [insertDesc]
  | cons y ys =>
    unfold insertDesc
    split <;> simp

theorem sortDesc_eq_nil_iff (l : List (ℚ × Nat)) : sortDesc l = [] ↔ l = [] := by
  cases l with
  | nil => simp [sortDesc]
  | cons x xs =>
    simp only [sortDesc]
    constructor
    · intro h
      exact absurd h (insertDesc_ne_nil x (sortDesc xs))
    · intro h
      exact absurd h (by simp)

theorem sortDesc_head_first_max :
    ∀ (l : List (ℚ × Nat)) (x : ℚ × Nat) (rest : List (ℚ × Nat)),
      sortDesc l = x :: rest →
      ∃ pre post, l = pre ++ x :: post ∧ (∀ p ∈ pre, p.1 < x.1) ∧
        (∀ p ∈ l, p.1 ≤ x.1) := by
  intro l
  induction l with
  | nil =>
    intro x rest h
    simp [sortDesc] at h
  | cons a as ih =>
    intro x rest h
    simp only [sortDesc] at h
    cases hs : sortDesc as with
    | nil =>
      have has : as = [] := (sortDesc_eq_nil_iff as).mp hs
      subst has
      simp only [sortDesc, insertDesc] at h
      injection h with h1 _
      subst h1
      refine ⟨[], [], by simp, by simp, ?_⟩
      intro p hp
      simp only [List.mem_singleton] at hp
      subst hp
      exact le_refl _
    | cons b bs =>
      rw [hs] at h
      unfold insertDesc at h
      by_cases hab : a.1 ≥ b.1
      · rw [if_pos hab] at h
        injection h with h1 _
        subst h1
        obtain ⟨pre', post', hdec, _, hall⟩ := ih b bs hs
        refine ⟨[], as, by simp, by simp, ?_⟩
        intro p hp
        rcases List.mem_cons.mp hp with rfl | hpas
        · exact le_refl _
        · exact le_trans (hall p hpas) hab
      · rw [if_neg hab] at h
        injection h with h1 _
        subst h1
        obtain ⟨pre', post', hdec, hpre, hall⟩ := ih b bs hs
        refine ⟨a :: pre', post', by rw [hdec, List.cons_append], ?_, ?_⟩
        · intro p hp
          rcases List.mem_cons.mp hp with rfl | hp2
          · exact lt_of_not_ge hab
          · exact hpre p hp2
        · intro p hp
          rcases List.mem_cons.mp hp with rfl | hp2
          · exact le_of_lt (lt_of_not_ge hab)
          · exact hall p hp2

theorem filterLoop_sims_ge (env : Engine E) (t : ℚ) (k : Int) (cands : List (ℚ × Int)) :
    ∀ p ∈ filterLoop env t k cands, t ≤ p.1 ∧ p.2 < env.faqLen := by
  unfold filterLoop
  have hgen : ∀ (l : List (ℚ × Int)) (acc : List (ℚ × Nat)),
      (∀ p ∈ acc, t ≤ p.1 ∧ p.2 < env.faqLen) →
      ∀ p ∈ l.foldl (fun acc sc =>
        if 0 ≤ sc.2 ∧ sc.2 < (env.originalIndices.length : Int) then
          let origIdx := env.originalIndices.getD sc.2.toNat 0
          if origIdx < env.faqLen then
            if sc.1 ≥ t then acc ++ [(sc.1, origIdx)] else acc
          else acc
        else acc) acc, t ≤ p.1 ∧ p.2 < env.faqLen := by
    intro l
    induction l with
    | nil =>
      intro acc hacc p hp
      exact hacc p hp
    | cons c cs ih =>
      intro acc hacc p hp
      simp only [List.foldl_cons] at hp
      refine ih _ ?_ p hp
      intro q hq
      split_ifs at hq with h1 h2 h3
      · rcases List.mem_append.mp hq with hq2 | hq2
        · exact hacc q hq2
        · simp only [List.mem_singleton] at hq2
          subst hq2
          exact ⟨h3, h2⟩
      · exact hacc q hq
      · exact hacc q hq
      · exact hacc q hq
  exact fun p hp => hgen (cands.take (min k (cands.length : Int)).toNat) [] (by simp) p hp

theorem filterLoop_nonpos (env : Engine E) (t : ℚ) (k : Int) (cands : List (ℚ × Int))
    (hk : k ≤ 0) : filterLoop env t k cands = [] := by
  unfold filterLoop
  have hz : (min k (cands.length : Int)).toNat = 0 := by
    rw [Int.toNat_eq_zero]
    exact le_trans (min_le_left _ _) hk
  rw [hz]
  simp

end FAQ

namespace LRUCache

variable {K V : Type} [DecidableEq K]

theorem get_none_again (c : LRUCache K V) (now : Nat) (key : K)
    (h : (c.get now key).1 = none) : (((c.get now key).2).get now key).1 = none := by
  rcases hf : c.cache.find? (fun p => decide (p.1 = key)) with _ | entry
  · rw [get_miss_absent c now key hf]
    rw [get_miss_absent { c with misses := c.misses + 1 } now key hf]
  · rcases hts : lookup1 c.timestamps key with _ | ts
    · rw [get_no_ts c now key entry hf hts]
      show ((({ c.removeKey key with misses := c.misses + 1 } : LRUCache K V).get
        now key).1 = none)
      rw [get_miss_absent { c.removeKey key with misses := c.misses + 1 } now key
        (find?_key_eq_none (removeKey_key_not_mem c key))]
    · by_cases hfr : now - ts < c.ttlSeconds
      · rw [get_fresh c now key entry ts hf hts hfr] at h
        simp at h
      · rw [get_stale c now key entry ts hf hts (by omega)]
        show ((({ c.removeKey key with misses := c.misses + 1 } : LRUCache K V).get
          now key).1 = none)
        rw [get_miss_absent { c.removeKey key with misses := c.misses + 1 } now key
          (find?_key_eq_none (removeKey_key_not_mem c key))]

end LRUCache

namespace FAQ

variable {E : Type}

theorem filterLoop_nil (env : Engine E) (t : ℚ) (k : Int) :
    filterLoop env t k [] = [] := by
  unfold filterLoop
  simp

theorem search_fst_phaseResult (env : Engine E) (st : SearchState E) (now : Nat)
    (query : String) (k : Int) (threshold : ℚ) (e : E)
    (hq : pyStrip query ≠ "")
    (hmiss : (st.queryCache.get now (queryKey (pyStrip query) k threshold)).1 = none)
    (hidx : env.hasIndex = true) (hfaq : env.hasFaq = true) (hml : env.modelLoaded = true)
    (hemb : (st.embCache.get now (embKey (pyStrip query))).1 = some e ∨
      ((st.embCache.get now (embKey (pyStrip query))).1 = none ∧
        env.encode (pyStrip query) = some e)) :
    (search env st now query k threshold).1 =
      phaseResult env (validThreshold env threshold) k e := by
  rcases hemb with h | ⟨h1, h2⟩
  · rw [search_to_phase_emb_hit env st now query k threshold e hq hmiss hidx hfaq hml h]
    exact searchIndexPhase_fst _ _ _ _ _ _ _
  · rw [search_to_phase_encode env st now query k threshold e hq hmiss hidx hfaq hml h1 h2]
    exact searchIndexPhase_fst _ _ _ _ _ _ _

theorem search_no_match_state (env : Engine E) (st : SearchState E) (now : Nat)
    (query : String) (k : Int) (threshold : ℚ) (e : E) (cands : List (ℚ × Int))
    (hq : pyStrip query ≠ "")
    (hmiss : (st.queryCache.get now (queryKey (pyStrip query) k threshold)).1 = none)
    (hidx : env.hasIndex = true) (hfaq : env.hasFaq = true) (hml : env.modelLoaded = true)
    (hembmiss : (st.embCache.get now (embKey (pyStrip query))).1 = none)
    (henc : env.encode (pyStrip query) = some e)
    (hsearch : env.indexSearch e (min k (env.ntotal : Int)) = some cands)
    (hnone : filterLoop env (validThreshold env threshold) k cands = []) :
    (search env st now query k threshold).1 = none ∧
    ((search env st now query k threshold).2).queryCache =
      ((st.queryCache.get now (queryKey (pyStrip query) k threshold)).2).set now
        (queryKey (pyStrip query) k threshold) none := by
  rw [search_to_phase_encode env st now query k threshold e hq hmiss hidx hfaq hml hembmiss henc]
  by_cases hc : cands = []
  · subst hc
    rw [phase_empty_cands _ _ _ _ _ _ _ hsearch]
    exact ⟨rfl, rfl⟩
  · rw [phase_with_cands _ _ _ _ _ _ _ cands hsearch hc, hnone]
    exact ⟨rfl, rfl⟩

end FAQ

/-- C1 counterexample: two candidates tied at similarity 1 survive the
threshold; with the index yielding the row owned by entry 1 first the
search returns entry 1, not the tied survivor with the lower entry index
0, and reversing the yield order changes the winner — the tie is broken by
yield order, not by entry index. -/
theorem search_tie_order_counterexample :
    (FAQ.search FAQ.envTieA FAQ.stEmpty 0 "q" 3 0).1 = some (1, 1) ∧
    (FAQ.search FAQ.envTieB FAQ.stEmpty 0 "q" 3 0).1 = some (1, 0) := by
  refine ⟨?_, ?_⟩ <;> decide

/-- C1 amended: for every search that reaches the filter step, every kept
candidate has similarity at least the (validated) threshold, equality
included, and the returned result is the first candidate of maximal
similarity in the survivor list — ties are broken by the order in which
the index yielded the rows, not by lowest entry index. -/
theorem search_returns_first_max_survivor (E : Type) (env : FAQ.Engine E)
    (st : FAQ.SearchState E) (now : Nat) (query : String) (k : Int) (threshold : ℚ)
    (e : E) (cands : List (ℚ × Int))
    (hq : FAQ.pyStrip query ≠ "")
    (hmiss : (st.queryCache.get now (FAQ.queryKey (FAQ.pyStrip query) k threshold)).1 = none)
    (hidx : env.hasIndex = true) (hfaq : env.hasFaq = true) (hml : env.modelLoaded = true)
    (hemb : (st.embCache.get now (FAQ.embKey (FAQ.pyStrip query))).1 = some e ∨
      ((st.embCache.get now (FAQ.embKey (FAQ.pyStrip query))).1 = none ∧
        env.encode (FAQ.pyStrip query) = some e))
    (hsearch : env.indexSearch e (min k (env.ntotal : Int)) = some cands)
    (hsurv : FAQ.filterLoop env (FAQ.validThreshold env threshold) k cands ≠ []) :
    ∃ x pre post,
      (FAQ.search env st now query k threshold).1 = some x ∧
      FAQ.filterLoop env (FAQ.validThreshold env threshold) k cands = pre ++ x :: post ∧
      FAQ.validThreshold env threshold ≤ x.1 ∧
      (∀ p ∈ pre, p.1 < x.1) ∧
      (∀ p ∈ FAQ.filterLoop env (FAQ.validThreshold env threshold) k cands, p.1 ≤ x.1) ∧
      (∀ p ∈ FAQ.filterLoop env (FAQ.validThreshold env threshold) k cands,
        FAQ.validThreshold env threshold ≤ p.1) := by
  have hfst := FAQ.search_fst_phaseResult env st now query k threshold e hq hmiss hidx hfaq hml hemb
  have hcne : cands ≠ [] := by
    intro hh
    rw [hh, FAQ.filterLoop_nil] at hsurv
    exact hsurv rfl
  rw [hfst]
  simp only [FAQ.phaseResult, hsearch]
  rw [if_neg (by simpa using hcne)]
  cases hsort : FAQ.sortDesc (FAQ.filterLoop env (FAQ.validThreshold env threshold) k cands) with
  | nil => exact absurd ((FAQ.sortDesc_eq_nil_iff _).mp hsort) hsurv
  | cons best rest =>
    obtain ⟨pre, post, hdec, hpre, hall⟩ := FAQ.sortDesc_head_first_max _ best rest hsort
    refine ⟨best, pre, post, rfl, hdec, ?_, hpre, hall, ?_⟩
    · exact (FAQ.filterLoop_sims_ge env _ k cands best (by rw [hdec]; simp)).1
    · intro p hp
      exact (FAQ.filterLoop_sims_ge env _ k cands p hp).1

/-- C1 amended witness: the tied-candidates engine at a concrete input. -/
theorem search_returns_first_max_survivor_witness :
    ∃ x pre post,
      (FAQ.search FAQ.envTieA FAQ.stEmpty 0 "q" 3 0).1 = some x ∧
      FAQ.filterLoop FAQ.envTieA (FAQ.validThreshold FAQ.envTieA 0) 3
          [(1, 0), (1, 1)] = pre ++ x :: post ∧
      FAQ.validThreshold FAQ.envTieA 0 ≤ x.1 ∧
      (∀ p ∈ pre, p.1 < x.1) ∧
      (∀ p ∈ FAQ.filterLoop FAQ.envTieA (FAQ.validThreshold FAQ.envTieA 0) 3
          [(1, 0), (1, 1)], p.1 ≤ x.1) ∧
      (∀ p ∈ FAQ.filterLoop FAQ.envTieA (FAQ.validThreshold FAQ.envTieA 0) 3
          [(1, 0), (1, 1)], FAQ.validThreshold FAQ.envTieA 0 ≤ p.1) :=
  search_returns_first_max_survivor Nat FAQ.envTieA FAQ.stEmpty 0 "q" 3 0 0
    [(1, 0), (1, 1)] (by decide) (by decide) (by decide) (by decide) (by decide)
    (Or.inr ⟨by decide, by decide⟩) (by decide) (by decide)

/-- C2: a search that completes with no candidate meeting the threshold
returns the no-match value, stores it in the query cache under the
composite key, and an immediately repeated identical search returns the
same no-match value from the cache with no further embedding-model or
index invocation. -/
theorem search_no_match_cached_and_replayed (E : Type) (env : FAQ.Engine E)
    (st : FAQ.SearchState E) (now : Nat) (query : String) (k : Int) (threshold : ℚ)
    (e : E) (cands : List (ℚ × Int))
    (hq : FAQ.pyStrip query ≠ "")
    (hmax : 0 < st.queryCache.maxSize) (httl : 0 < st.queryCache.ttlSeconds)
    (hmiss : (st.queryCache.get now (FAQ.queryKey (FAQ.pyStrip query) k threshold)).1 = none)
    (hidx : env.hasIndex = true) (hfaq : env.hasFaq = true) (hml : env.modelLoaded = true)
    (hembmiss : (st.embCache.get now (FAQ.embKey (FAQ.pyStrip query))).1 = none)
    (henc : env.encode (FAQ.pyStrip query) = some e)
    (hsearch : env.indexSearch e (min k (env.ntotal : Int)) = some cands)
    (hnone : FAQ.filterLoop env (FAQ.validThreshold env threshold) k cands = []) :
    (FAQ.search env st now query k threshold).1 = none ∧
    (((FAQ.search env st now query k threshold).2).queryCache.get now
        (FAQ.queryKey (FAQ.pyStrip query) k threshold)).1 = some none ∧
    (FAQ.search env ((FAQ.search env st now query k threshold).2) now query k threshold).1
        = none ∧
    ((FAQ.search env ((FAQ.search env st now query k threshold).2) now query k
        threshold).2).encodeCalls = ((FAQ.search env st now query k threshold).2).encodeCalls ∧
    ((FAQ.search env ((FAQ.search env st now query k threshold).2) now query k
        threshold).2).indexCalls = ((FAQ.search env st now query k threshold).2).indexCalls := by
  obtain ⟨h1, h2⟩ := FAQ.search_no_match_state env st now query k threshold e cands
    hq hmiss hidx hfaq hml hembmiss henc hsearch hnone
  have hget : (((FAQ.search env st now query k threshold).2).queryCache.get now
      (FAQ.queryKey (FAQ.pyStrip query) k threshold)).1 = some none := by
    rw [h2]
    exact LRUCache.get_set_self _ now _ none
      (by rw [LRUCache.get_maxSize]; omega) (by rw [LRUCache.get_ttl]; omega)
  have hsecond := FAQ.search_cache_hit env ((FAQ.search env st now query k threshold).2)
    now query k threshold none hq hget
  refine ⟨h1, hget, ?_, ?_, ?_⟩ <;> simp [hsecond, FAQ.trackReq]

/-- C2 witness: a below-threshold candidate produces a cached no-match that
the immediate repeat returns without new provider or index calls. -/
theorem search_no_match_cached_and_replayed_witness :
    (FAQ.search FAQ.envLowSim FAQ.stEmpty 0 "q" 3 1).1 = none ∧
    (((FAQ.search FAQ.envLowSim FAQ.stEmpty 0 "q" 3 1).2).queryCache.get 0
        (FAQ.queryKey (FAQ.pyStrip "q") 3 1)).1 = some none ∧
    (FAQ.search FAQ.envLowSim ((FAQ.search FAQ.envLowSim FAQ.stEmpty 0 "q" 3 1).2) 0
        "q" 3 1).1 = none ∧
    ((FAQ.search FAQ.envLowSim ((FAQ.search FAQ.envLowSim FAQ.stEmpty 0 "q" 3 1).2) 0
        "q" 3 1).2).encodeCalls
      = ((FAQ.search FAQ.envLowSim FAQ.stEmpty 0 "q" 3 1).2).encodeCalls ∧
    ((FAQ.search FAQ.envLowSim ((FAQ.search FAQ.envLowSim FAQ.stEmpty 0 "q" 3 1).2) 0
        "q" 3 1).2).indexCalls
      = ((FAQ.search FAQ.envLowSim FAQ.stEmpty 0 "q" 3 1).2).indexCalls :=
  search_no_match_cached_and_replayed Nat FAQ.envLowSim FAQ.stEmpty 0 "q" 3 1 0 [(0, 0)]
    (by decide) (by decide) (by decide) (by decide) (by decide) (by decide) (by decide)
    (by decide) (by decide) (by decide) (by decide)

/-- C5 counterexample: searching a whitespace-only query is not free of
side effects — the request-tracking counter of the performance metrics is
incremented (the source runs track_request in its finally block). -/
theorem search_empty_query_side_effect_counterexample :
    (FAQ.search FAQ.envTieA FAQ.stEmpty 0 "   " 3 0).2.totalRequests = 1 ∧
    FAQ.stEmpty.totalRequests = 0 := by
  refine ⟨?_, ?_⟩ <;> decide

/-- C5 amended: an empty or whitespace-only query returns the no-match
value immediately; the query cache, embedding cache, hit/miss counters and
provider/index call counters are untouched, and the only state change is
the request-tracking counter. -/
theorem search_empty_query_contract (E : Type) (env : FAQ.Engine E)
    (st : FAQ.SearchState E) (now : Nat) (query : String) (k : Int) (threshold : ℚ)
    (hq : FAQ.pyStrip query = "") :
    (FAQ.search env st now query k threshold).1 = none ∧
    (FAQ.search env st now query k threshold).2.queryCache = st.queryCache ∧
    (FAQ.search env st now query k threshold).2.embCache = st.embCache ∧
    (FAQ.search env st now query k threshold).2.mHits = st.mHits ∧
    (FAQ.search env st now query k threshold).2.mMisses = st.mMisses ∧
    (FAQ.search env st now query k threshold).2.encodeCalls = st.encodeCalls ∧
    (FAQ.search env st now query k threshold).2.indexCalls = st.indexCalls ∧
    (FAQ.search env st now query k threshold).2.totalRequests = st.totalRequests + 1 := by
  rw [FAQ.search_empty_query env st now query k threshold hq]
  exact ⟨rfl, rfl, rfl, rfl, rfl, rfl, rfl, rfl⟩

/-- C5 amended witness: the whitespace-only query at a concrete state. -/
theorem search_empty_query_contract_witness :
    (FAQ.search FAQ.envTieA FAQ.stEmpty 0 "  " 3 0).1 = none ∧
    (FAQ.search FAQ.envTieA FAQ.stEmpty 0 "  " 3 0).2.queryCache = FAQ.stEmpty.queryCache ∧
    (FAQ.search FAQ.envTieA FAQ.stEmpty 0 "  " 3 0).2.embCache = FAQ.stEmpty.embCache ∧
    (FAQ.search FAQ.envTieA FAQ.stEmpty 0 "  " 3 0).2.mHits = FAQ.stEmpty.mHits ∧
    (FAQ.search FAQ.envTieA FAQ.stEmpty 0 "  " 3 0).2.mMisses = FAQ.stEmpty.mMisses ∧
    (FAQ.search FAQ.envTieA FAQ.stEmpty 0 "  " 3 0).2.encodeCalls = FAQ.stEmpty.encodeCalls ∧
    (FAQ.search FAQ.envTieA FAQ.stEmpty 0 "  " 3 0).2.indexCalls = FAQ.stEmpty.indexCalls ∧
    (FAQ.search FAQ.envTieA FAQ.stEmpty 0 "  " 3 0).2.totalRequests =
      FAQ.stEmpty.totalRequests + 1 :=
  search_empty_query_contract Nat FAQ.envTieA FAQ.stEmpty 0 "  " 3 0 (by decide)

/-- C7 counterexample: a provider failure and a no-match completion return
the identical result value (None, None); the two outcomes are not
distinguishable from the returned result state. -/
theorem search_error_no_match_same_result_counterexample :
    (FAQ.search FAQ.envEncodeErr FAQ.stEmpty 0 "q" 3 0).1 = none ∧
    (FAQ.search FAQ.envLowSim FAQ.stEmpty 0 "q" 3 1).1 = none ∧
    (FAQ.search FAQ.envEncodeErr FAQ.stEmpty 0 "q" 3 0).1 =
      (FAQ.search FAQ.envLowSim FAQ.stEmpty 0 "q" 3 1).1 := by
  refine ⟨?_, ?_, ?_⟩ <;> decide

/-- C7 amended: both the provider-error outcome and the no-match outcome
return the same (None, None) value; they differ only in a side effect —
the no-match result is written to the query cache under the composite key
while the error outcome leaves that key absent. -/
theorem search_error_vs_no_match_cache_distinction (E : Type) :
    (∀ (env : FAQ.Engine E) (st : FAQ.SearchState E) (now : Nat) (query : String)
        (k : Int) (threshold : ℚ),
      FAQ.pyStrip query ≠ "" →
      (st.queryCache.get now (FAQ.queryKey (FAQ.pyStrip query) k threshold)).1 = none →
      env.hasIndex = true → env.hasFaq = true → env.modelLoaded = true →
      (st.embCache.get now (FAQ.embKey (FAQ.pyStrip query))).1 = none →
      env.encode (FAQ.pyStrip query) = none →
      (FAQ.search env st now query k threshold).1 = none ∧
      (((FAQ.search env st now query k threshold).2).queryCache.get now
        (FAQ.queryKey (FAQ.pyStrip query) k threshold)).1 = none) ∧
    (∀ (env : FAQ.Engine E) (st : FAQ.SearchState E) (now : Nat) (query : String)
        (k : Int) (threshold : ℚ) (e : E) (cands : List (ℚ × Int)),
      FAQ.pyStrip query ≠ "" →
      0 < st.queryCache.maxSize → 0 < st.queryCache.ttlSeconds →
      (st.queryCache.get now (FAQ.queryKey (FAQ.pyStrip query) k threshold)).1 = none →
      env.hasIndex = true → env.hasFaq = true → env.modelLoaded = true →
      (st.embCache.get now (FAQ.embKey (FAQ.pyStrip query))).1 = none →
      env.encode (FAQ.pyStrip query) = some e →
      env.indexSearch e (min k (env.ntotal : Int)) = some cands →
      FAQ.filterLoop env (FAQ.validThreshold env threshold) k cands = [] →
      (FAQ.search env st now query k threshold).1 = none ∧
      (((FAQ.search env st now query k threshold).2).queryCache.get now
        (FAQ.queryKey (FAQ.pyStrip query) k threshold)).1 = some none) := by
  constructor
  · intro env st now query k threshold hq hmiss hidx hfaq hml hembmiss henc
    rw [FAQ.search_encode_fail env st now query k threshold hq hmiss hidx hfaq hml
      hembmiss henc]
    exact ⟨rfl, LRUCache.get_none_again _ now _ hmiss⟩
  · intro env st now query k threshold e cands hq hmax httl hmiss hidx hfaq hml
      hembmiss henc hsearch hnone
    obtain ⟨h1, h2⟩ := FAQ.search_no_match_state env st now query k threshold e cands
      hq hmiss hidx hfaq hml hembmiss henc hsearch hnone
    refine ⟨h1, ?_⟩
    rw [h2]
    exact LRUCache.get_set_self _ now _ none
      (by rw [LRUCache.get_maxSize]; omega) (by rw [LRUCache.get_ttl]; omega)

/-- C7 amended witness: the provider-error engine leaves the key absent;
the no-match engine stores the no-match value under it. -/
theorem search_error_vs_no_match_cache_distinction_witness :
    ((FAQ.search FAQ.envEncodeErr FAQ.stEmpty 0 "q" 3 0).1 = none ∧
      (((FAQ.search FAQ.envEncodeErr FAQ.stEmpty 0 "q" 3 0).2).queryCache.get 0
        (FAQ.queryKey (FAQ.pyStrip "q") 3 0)).1 = none) ∧
    ((FAQ.search FAQ.envLowSim FAQ.stEmpty 0 "q" 3 1).1 = none ∧
      (((FAQ.search FAQ.envLowSim FAQ.stEmpty 0 "q" 3 1).2).queryCache.get 0
        (FAQ.queryKey (FAQ.pyStrip "q") 3 1)).1 = some none) := by
  constructor
  · exact (search_error_vs_no_match_cache_distinction Nat).1 FAQ.envEncodeErr FAQ.stEmpty
      0 "q" 3 0 (by decide) (by decide) (by decide) (by decide) (by decide) (by decide)
      (by decide)
  · exact (search_error_vs_no_match_cache_distinction Nat).2 FAQ.envLowSim FAQ.stEmpty
      0 "q" 3 1 0 [(0, 0)] (by decide) (by decide) (by decide) (by decide) (by decide)
      (by decide) (by decide) (by decide) (by decide) (by decide) (by decide)

/-- C8 counterexample: k = 0 (below the valid range) is not corrected to a
safe value: with a perfect-similarity entry available (returned at k = 1),
the k = 0 search returns the no-match value instead. -/
theorem search_k_zero_not_corrected_counterexample :
    (FAQ.search FAQ.envPerfect FAQ.stEmpty 0 "q" 0 0).1 = none ∧
    (FAQ.search FAQ.envPerfect FAQ.stEmpty 0 "q" 1 0).1 = some (1, 0) := by
  refine ⟨?_, ?_⟩ <;> decide

/-- C8 amended: the search is a total function (never raises); a threshold
outside [0, 1] is replaced by the configured default, so the result value
equals that of a search with the default threshold; but a non-positive k
is not corrected — the filter loop processes zero candidates and the
search returns the no-match value. -/
theorem search_threshold_defaulted_and_small_k_uncorrected (E : Type) :
    (∀ (env : FAQ.Engine E) (st : FAQ.SearchState E) (now : Nat) (query : String)
        (k : Int) (threshold : ℚ),
      FAQ.pyStrip query ≠ "" →
      ¬(0 ≤ threshold ∧ threshold ≤ 1) →
      (0 ≤ env.defaultThreshold ∧ env.defaultThreshold ≤ 1) →
      (st.queryCache.get now (FAQ.queryKey (FAQ.pyStrip query) k threshold)).1 = none →
      (st.queryCache.get now
        (FAQ.queryKey (FAQ.pyStrip query) k env.defaultThreshold)).1 = none →
      (FAQ.search env st now query k threshold).1 =
        (FAQ.search env st now query k env.defaultThreshold).1) ∧
    (∀ (env : FAQ.Engine E) (st : FAQ.SearchState E) (now : Nat) (query : String)
        (k : Int) (threshold : ℚ) (e : E) (cands : List (ℚ × Int)),
      FAQ.pyStrip query ≠ "" →
      (st.queryCache.get now (FAQ.queryKey (FAQ.pyStrip query) k threshold)).1 = none →
      env.hasIndex = true → env.hasFaq = true → env.modelLoaded = true →
      ((st.embCache.get now (FAQ.embKey (FAQ.pyStrip query))).1 = some e ∨
        ((st.embCache.get now (FAQ.embKey (FAQ.pyStrip query))).1 = none ∧
          env.encode (FAQ.pyStrip query) = some e)) →
      env.indexSearch e (min k (env.ntotal : Int)) = some cands →
      k ≤ 0 →
      (FAQ.search env st now query k threshold).1 = none) := by
  constructor
  · intro env st now query k threshold hq hout hdef hm1 hm2
    cases hidx : env.hasIndex with
    | false =>
      rw [FAQ.search_no_index env st now query k threshold hq hm1 hidx,
        FAQ.search_no_index env st now query k env.defaultThreshold hq hm2 hidx]
    | true =>
      cases hfaq : env.hasFaq with
      | false =>
        rw [FAQ.search_no_faq env st now query k threshold hq hm1 hidx hfaq,
          FAQ.search_no_faq env st now query k env.defaultThreshold hq hm2 hidx hfaq]
      | true =>
        cases hml : env.modelLoaded with
        | false =>
          rw [FAQ.search_no_model env st now query k threshold hq hm1 hidx hfaq hml,
            FAQ.search_no_model env st now query k env.defaultThreshold hq hm2 hidx hfaq hml]
        | true =>
          rcases hembc : (st.embCache.get now (FAQ.embKey (FAQ.pyStrip query))).1 with _ | e
          · rcases hencc : env.encode (FAQ.pyStrip query) with _ | e
            · rw [FAQ.search_encode_fail env st now query k threshold hq hm1 hidx hfaq hml
                hembc hencc,
                FAQ.search_encode_fail env st now query k env.defaultThreshold hq hm2 hidx
                  hfaq hml hembc hencc]
            · rw [FAQ.search_fst_phaseResult env st now query k threshold e hq hm1 hidx hfaq
                hml (Or.inr ⟨hembc, hencc⟩),
                FAQ.search_fst_phaseResult env st now query k env.defaultThreshold e hq hm2
                  hidx hfaq hml (Or.inr ⟨hembc, hencc⟩),
                FAQ.validThreshold_of_out env threshold hout,
                FAQ.validThreshold_of_in env env.defaultThreshold hdef]
          · rw [FAQ.search_fst_phaseResult env st now query k threshold e hq hm1 hidx hfaq
              hml (Or.inl hembc),
              FAQ.search_fst_phaseResult env st now query k env.defaultThreshold e hq hm2
                hidx hfaq hml (Or.inl hembc),
              FAQ.validThreshold_of_out env threshold hout,
              FAQ.validThreshold_of_in env env.defaultThreshold hdef]
  · intro env st now query k threshold e cands hq hmiss hidx hfaq hml hemb hsearch hk
    rw [FAQ.search_fst_phaseResult env st now query k threshold e hq hmiss hidx hfaq hml hemb]
    simp only [FAQ.phaseResult, hsearch]
    by_cases hc : cands.length = 0
    · rw [if_pos hc]
    · rw [if_neg hc, FAQ.filterLoop_nonpos env _ k cands hk]
      rfl

/-- C8 amended witness: an out-of-range threshold behaves like the default
threshold, and k = 0 returns the no-match value at a concrete engine. -/
theorem search_threshold_defaulted_and_small_k_uncorrected_witness :
    ((FAQ.search FAQ.envLowSim FAQ.stEmpty 0 "q" 3 2).1 =
      (FAQ.search FAQ.envLowSim FAQ.stEmpty 0 "q" 3 FAQ.envLowSim.defaultThreshold).1) ∧
    (FAQ.search FAQ.envPerfect FAQ.stEmpty 0 "q" 0 0).1 = none := by
  constructor
  · exact (search_threshold_defaulted_and_small_k_uncorrected Nat).1 FAQ.envLowSim
      FAQ.stEmpty 0 "q" 3 2 (by decide) (by decide) (by decide) (by decide) (by decide)
  · exact (search_threshold_defaulted_and_small_k_uncorrected Nat).2 FAQ.envPerfect
      FAQ.stEmpty 0 "q" 0 0 0 [] (by decide) (by decide) (by decide) (by decide)
      (by decide) (Or.inr ⟨by decide, by decide⟩) (by decide) (by decide)

/-- C9: the query-result cache key is the case-folded stripped text (plus k
and threshold) because the source hashes key.lower().strip(); a search for
a query differing only in letter case or edge whitespace from one whose
result is cached returns that cached result, without any embedding-model
or index invocation, even though the two texts could embed differently. -/
theorem search_cache_key_case_insensitive (E : Type) (env : FAQ.Engine E)
    (st : FAQ.SearchState E) (now : Nat) (q1 q2 : String) (k : Int) (threshold : ℚ)
    (r : Option (ℚ × Nat))
    (hq2 : FAQ.pyStrip q2 ≠ "")
    (hkey : FAQ.pyLower (FAQ.pyStrip q1) = FAQ.pyLower (FAQ.pyStrip q2))
    (hstored : (st.queryCache.get now (FAQ.queryKey (FAQ.pyStrip q1) k threshold)).1
      = some r) :
    (FAQ.search env st now q2 k threshold).1 = r ∧
    ((FAQ.search env st now q2 k threshold).2).encodeCalls = st.encodeCalls ∧
    ((FAQ.search env st now q2 k threshold).2).indexCalls = st.indexCalls := by
  have hkeq : FAQ.queryKey (FAQ.pyStrip q2) k threshold =
      FAQ.queryKey (FAQ.pyStrip q1) k threshold := by
    simp [FAQ.queryKey, hkey]
  have hhit : (st.queryCache.get now (FAQ.queryKey (FAQ.pyStrip q2) k threshold)).1
      = some r := by
    rw [hkeq]
    exact hstored
  rw [FAQ.search_cache_hit env st now q2 k threshold r hq2 hhit]
  exact ⟨rfl, rfl, rfl⟩

/-- C9 witness: a result stored for "ABC" is returned for " abc " (case and
edge whitespace differ) by an engine whose embedding model always fails,
showing no provider call was needed. -/
theorem search_cache_key_case_insensitive_witness :
    (FAQ.search FAQ.envEncodeErr
      { FAQ.stEmpty with
        queryCache := (LRUCache.init 500 1800).set 0 (FAQ.queryKey "abc" 2 1)
          (some (1, 0)) } 0 " abc " 2 1).1 = some (1, 0) ∧
    ((FAQ.search FAQ.envEncodeErr
      { FAQ.stEmpty with
        queryCache := (LRUCache.init 500 1800).set 0 (FAQ.queryKey "abc" 2 1)
          (some (1, 0)) } 0 " abc " 2 1).2).encodeCalls =
      ({ FAQ.stEmpty with
        queryCache := (LRUCache.init 500 1800).set 0 (FAQ.queryKey "abc" 2 1)
          (some (1, 0)) } : FAQ.SearchState Nat).encodeCalls ∧
    ((FAQ.search FAQ.envEncodeErr
      { FAQ.stEmpty with
        queryCache := (LRUCache.init 500 1800).set 0 (FAQ.queryKey "abc" 2 1)
          (some (1, 0)) } 0 " abc " 2 1).2).indexCalls =
      ({ FAQ.stEmpty with
        queryCache := (LRUCache.init 500 1800).set 0 (FAQ.queryKey "abc" 2 1)
          (some (1, 0)) } : FAQ.SearchState Nat).indexCalls :=
  search_cache_key_case_insensitive Nat FAQ.envEncodeErr
    { FAQ.stEmpty with
      queryCache := (LRUCache.init 500 1800).set 0 (FAQ.queryKey "abc" 2 1)
        (some (1, 0)) } 0 "ABC" " abc " 2 1 (some (1, 0))
    (by decide) (by decide) (by decide)

namespace FAQ

theorem zip_proj_eq {α β : Type} : ∀ (L : List (α × β)),
    (L.map Prod.fst).zip (L.map Prod.snd) = L := by
  intro L
  induction L with
  | nil => rfl
  | cons p rest ih => simp [ih]

theorem loadLoop_spec : ∀ (l : List RawItem) (faq0 : List RawItem) (qs0 : List String)
    (idxs0 : List Nat),
    loadLoop l (faq0, qs0, idxs0) =
      (faq0 ++ l.filter validateItem,
       qs0 ++ (contribFrom faq0.length l).map Prod.fst,
       idxs0 ++ (contribFrom faq0.length l).map Prod.snd) := by
  intro l
  induction l with
  | nil =>
    intro faq0 qs0 idxs0
    simp [loadLoop, contribFrom]
  | cons item rest ih =>
    intro faq0 qs0 idxs0
    by_cases hv : validateItem item
    · simp only [loadLoop, hv, if_true, contribFrom, List.filter_cons]
      rw [ih]
      have hlen : (faq0 ++ [item]).length - 1 = faq0.length := by simp
      have hlen2 : (faq0 ++ [item]).length = faq0.length + 1 := by simp
      simp only [hlen, hlen2, List.map_append, List.map_map, List.append_assoc,
        Prod.mk.injEq]
      refine ⟨by simp, ?_, ?_⟩
      · rw [show (Prod.fst ∘ fun s => (s, faq0.length)) = id from rfl]
        simp
      · rw [show (Prod.snd ∘ fun s => (s, faq0.length)) =
          (fun _ => faq0.length) from rfl]
        simp
    · have hv2 : validateItem item = false := Bool.eq_false_iff.mpr hv
      simp only [loadLoop, hv2, Bool.false_eq_true, if_false, contribFrom,
        List.filter_cons]
      exact ih faq0 qs0 idxs0

theorem contribFrom_indices_ge : ∀ (l : List RawItem) (base : Nat) (p : String × Nat),
    p ∈ contribFrom base l → base ≤ p.2 := by
  intro l
  induction l with
  | nil =>
    intro base p hp
    simp [contribFrom] at hp
  | cons item rest ih =>
    intro base p hp
    by_cases hv : validateItem item
    · simp only [contribFrom, hv, if_true, List.mem_append] at hp
      rcases hp with hp | hp
      · obtain ⟨s, _, rfl⟩ := List.mem_map.mp hp
        exact le_refl _
      · exact le_trans (Nat.le_succ base) (ih (base + 1) p hp)
    · simp only [contribFrom, hv, if_false] at hp
      exact ih base p hp

theorem contribFrom_filter_eq : ∀ (l : List RawItem) (base j : Nat),
    j < (l.filter validateItem).length →
    ((contribFrom base l).filter (fun p => decide (p.2 = base + j))).map Prod.fst =
      mainQueryStrings ((l.filter validateItem).getD j RawItem.notDict) ++
        variationStrings ((l.filter validateItem).getD j RawItem.notDict) := by
  intro l
  induction l with
  | nil =>
    intro base j hj
    simp at hj
  | cons item rest ih =>
    intro base j hj
    by_cases hv : validateItem item
    · simp only [contribFrom, hv, if_true, List.filter_append]
      cases j with
      | zero =>
        have hblock : ((mainQueryStrings item ++ variationStrings item).map
            (fun s => (s, base))).filter (fun p => decide (p.2 = base + 0)) =
            (mainQueryStrings item ++ variationStrings item).map (fun s => (s, base)) := by
          apply List.filter_eq_self.mpr
          intro p hp
          obtain ⟨s, _, rfl⟩ := List.mem_map.mp hp
          simp
        have hrest : (contribFrom (base + 1) rest).filter
            (fun p => decide (p.2 = base + 0)) = [] := by
          apply List.filter_eq_nil.mpr
          intro p hp
          have := contribFrom_indices_ge rest (base + 1) p hp
          simp only [decide_eq_true_eq]
          omega
        rw [hblock, hrest, List.append_nil]
        have hget : ((item :: rest).filter validateItem).getD 0 RawItem.notDict = item := by
          simp [List.filter_cons, hv]
        rw [show (item :: rest).filter validateItem =
          item :: rest.filter validateItem by simp [List.filter_cons, hv]]
        simp only [List.getD_cons_zero, List.map_map]
        rw [show (Prod.fst ∘ fun s => (s, base)) = id from rfl, List.map_id]
      | succ j2 =>
        have hblock : ((mainQueryStrings item ++ variationStrings item).map
            (fun s => (s, base))).filter (fun p => decide (p.2 = base + (j2 + 1))) = [] := by
          apply List.filter_eq_nil.mpr
          intro p hp
          obtain ⟨s, _, rfl⟩ := List.mem_map.mp hp
          simp only [decide_eq_true_eq]
          omega
        rw [hblock, List.nil_append]
        have hj2 : j2 < (rest.filter validateItem).length := by
          rw [show (item :: rest).filter validateItem =
            item :: rest.filter validateItem by simp [List.filter_cons, hv]] at hj
          simpa using hj
        have := ih (base + 1) j2 hj2
        rw [show base + (j2 + 1) = (base + 1) + j2 by omega]
        rw [this]
        rw [show (item :: rest).filter validateItem =
          item :: rest.filter validateItem by simp [List.filter_cons, hv]]
        simp
    · simp only [contribFrom, hv, if_false]
      have hfeq : (item :: rest).filter validateItem = rest.filter validateItem := by
        simp [List.filter_cons, hv]
      rw [hfeq] at hj
      rw [hfeq]
      exact ih base j hj

end FAQ

/-- C6 counterexample: an entry whose canonical query is the whitespace
string " " survives validation (Python truthiness accepts it) yet
contributes zero searchable strings: the two-entry corpus below loads with
entry 1 present in the FAQ list but with searchable strings ["a"] owned
entirely by entry 0 — not 1 + |variations| = 1 strings for entry 1. -/
theorem load_faq_whitespace_query_counterexample :
    FAQ.validateItem (FAQ.RawItem.dict (some (FAQ.JVal.str " "))
      (some FAQ.JVal.other) none) = true ∧
    (FAQ.loadFaq [FAQ.RawItem.dict (some (FAQ.JVal.str "a")) (some FAQ.JVal.other) none,
        FAQ.RawItem.dict (some (FAQ.JVal.str " ")) (some FAQ.JVal.other) none]).map
      (fun r => r.1.length) = some 2 ∧
    (FAQ.loadFaq [FAQ.RawItem.dict (some (FAQ.JVal.str "a")) (some FAQ.JVal.other) none,
        FAQ.RawItem.dict (some (FAQ.JVal.str " ")) (some FAQ.JVal.other) none]).map
      (fun r => (r.2.1, r.2.2)) = some (["a"], [0]) := by
  refine ⟨?_, ?_, ?_⟩ <;> decide

/-- C6 amended: for every corpus that loads successfully, the surviving
entries are exactly the items passing validation, and entry j's
contributed searchable strings (the strings paired with index j) are its
stripped canonical query — only when non-empty after stripping — followed
by each variation that is a string and non-empty after stripping, in
original order; so an entry contributes (0 or 1) + #(non-blank string
variations) strings, not always 1 + |variations|. -/
theorem load_faq_entry_contributions (raw faq : List FAQ.RawItem)
    (qs : List String) (idxs : List Nat)
    (h : FAQ.loadFaq raw = some (faq, qs, idxs)) :
    faq = raw.filter FAQ.validateItem ∧
    qs.zip idxs = FAQ.contribFrom 0 raw ∧
    qs.length = idxs.length ∧
    ∀ j, j < faq.length →
      ((qs.zip idxs).filter (fun p => decide (p.2 = j))).map Prod.fst =
        FAQ.mainQueryStrings (faq.getD j FAQ.RawItem.notDict) ++
          FAQ.variationStrings (faq.getD j FAQ.RawItem.notDict) := by
  simp only [FAQ.loadFaq] at h
  by_cases h1 : raw.isEmpty
  · rw [if_pos h1] at h
    simp at h
  · rw [if_neg h1] at h
    by_cases h2 : (FAQ.loadLoop raw ([], [], [])).2.1.isEmpty
    · rw [if_pos h2] at h
      simp at h
    · rw [if_neg h2] at h
      injection h with h3
      rw [FAQ.loadLoop_spec] at h3
      simp only [List.nil_append, List.length_nil] at h3
      injection h3.symm with hfaq h4
      injection h4 with hqs hidxs
      subst hfaq
      subst hqs
      subst hidxs
      refine ⟨rfl, ?_, by simp, ?_⟩
      · exact FAQ.zip_proj_eq _
      · intro j hj
        rw [FAQ.zip_proj_eq]
        have := FAQ.contribFrom_filter_eq raw 0 j (by simpa using hj)
        simp only [Nat.zero_add] at this
        rw [this]

/-- C6 amended witness: one entry with query " Hi " and variations
["v1", " ", non-string, "v2"] contributes exactly ["Hi", "v1", "v2"], all
owned by entry 0. -/
theorem load_faq_entry_contributions_witness :
    ([FAQ.RawItem.dict (some (FAQ.JVal.str " Hi ")) (some FAQ.JVal.other)
        (some (FAQ.JVal.list [FAQ.JVal.str "v1", FAQ.JVal.str " ", FAQ.JVal.other,
          FAQ.JVal.str "v2"]))] : List FAQ.RawItem) =
      ([FAQ.RawItem.dict (some (FAQ.JVal.str " Hi ")) (some FAQ.JVal.other)
        (some (FAQ.JVal.list [FAQ.JVal.str "v1", FAQ.JVal.str " ", FAQ.JVal.other,
          FAQ.JVal.str "v2"]))] : List FAQ.RawItem).filter FAQ.validateItem ∧
    (["Hi", "v1", "v2"] : List String).zip ([0, 0, 0] : List Nat) =
      FAQ.contribFrom 0 [FAQ.RawItem.dict (some (FAQ.JVal.str " Hi "))
        (some FAQ.JVal.other) (some (FAQ.JVal.list [FAQ.JVal.str "v1",
          FAQ.JVal.str " ", FAQ.JVal.other, FAQ.JVal.str "v2"]))] ∧
    (["Hi", "v1", "v2"] : List String).length = ([0, 0, 0] : List Nat).length ∧
    ∀ j, j < ([FAQ.RawItem.dict (some (FAQ.JVal.str " Hi ")) (some FAQ.JVal.other)
        (some (FAQ.JVal.list [FAQ.JVal.str "v1", FAQ.JVal.str " ", FAQ.JVal.other,
          FAQ.JVal.str "v2"]))] : List FAQ.RawItem).length →
      (((["Hi", "v1", "v2"] : List String).zip ([0, 0, 0] : List Nat)).filter
          (fun p => decide (p.2 = j))).map Prod.fst =
        FAQ.mainQueryStrings (([FAQ.RawItem.dict (some (FAQ.JVal.str " Hi "))
            (some FAQ.JVal.other) (some (FAQ.JVal.list [FAQ.JVal.str "v1",
              FAQ.JVal.str " ", FAQ.JVal.other, FAQ.JVal.str "v2"]))] :
            List FAQ.RawItem).getD j FAQ.RawItem.notDict) ++
          FAQ.variationStrings (([FAQ.RawItem.dict (some (FAQ.JVal.str " Hi "))
            (some FAQ.JVal.other) (some (FAQ.JVal.list [FAQ.JVal.str "v1",
              FAQ.JVal.str " ", FAQ.JVal.other, FAQ.JVal.str "v2"]))] :
            List FAQ.RawItem).getD j FAQ.RawItem.notDict) :=
  load_faq_entry_contributions
    [FAQ.RawItem.dict (some (FAQ.JVal.str " Hi ")) (some FAQ.JVal.other)
      (some (FAQ.JVal.list [FAQ.JVal.str "v1", FAQ.JVal.str " ", FAQ.JVal.other,
        FAQ.JVal.str "v2"]))]
    [FAQ.RawItem.dict (some (FAQ.JVal.str " Hi ")) (some FAQ.JVal.other)
      (some (FAQ.JVal.list [FAQ.JVal.str "v1", FAQ.JVal.str " ", FAQ.JVal.other,
        FAQ.JVal.str "v2"]))]
    ["Hi", "v1", "v2"] [0, 0, 0] rfl
